import Mathlib

/-!
Verification of the Depthful localization catalog auditor/repairer.

The repository consists of four Python scripts operating on an
`.xcstrings`-style JSON catalog:

* `localization_analyzer.py` — interactive analyze + repair,
* `localization_fixer.py`    — non-interactive analyze + repair with a
  static phrase dictionary,
* `fix_localizations.py`     — the Normalizer pass (synthesize a missing
  `en` localization, coerce states to `translated`),
* `localization_status.py`   — read-only status summary.

This file shallowly embeds the data model (JSON objects become structures
with `Option` fields for optional keys; Python dicts become association
lists preserving insertion order) and the analysis/repair/normalize
operations of each script, and proves the stated properties. Python
operations that can raise `KeyError` are embedded as `Option`-returning
functions, `none` denoting an uncaught exception. Python float percentages
are modelled with exact rational arithmetic.
-/

set_option autoImplicit false

namespace Depthful

/-- Lookup of a key in an association list (first binding wins, as in a
Python dict, whose keys are unique). -/
def lookupA {α : Type} : List (String × α) → String → Option α
  | [], _ => none
  | (k, v) :: rest, key => if k = key then some v else lookupA rest key

/-- Python dict assignment `d[key] = v`: replace in place when the key is
present, append at the end otherwise (insertion order semantics). -/
def insertA {α : Type} : List (String × α) → String → α → List (String × α)
  | [], key, v => [(key, v)]
  | (k, w) :: rest, key, v =>
      if k = key then (k, v) :: rest else (k, w) :: insertA rest key v

/-- A `stringUnit` object: both the `state` and `value` keys may be absent
in the raw JSON. -/
structure StringUnit where
  state : Option String
  value : Option String
deriving DecidableEq

/-- One language's rendering of an entry; the `stringUnit` key may be
absent. -/
structure Localization where
  stringUnit : Option StringUnit
deriving DecidableEq

/-- One catalog entry: `shouldTranslate` and `localizations` are both
optional keys of the JSON object. -/
structure Entry where
  shouldTranslate : Option Bool
  localizations : Option (List (String × Localization))
deriving DecidableEq

/-- The loaded catalog: the top-level `strings` mapping. -/
structure Catalog where
  strings : List (String × Entry)
deriving DecidableEq

/-- The ten-code target language set, defined identically (as the set
literal `{'ar','de','es','fr','hi','ja','ko','pt','zh-Hans','en'}`) in
`localization_analyzer.py`, `localization_fixer.py` and
`localization_status.py`. -/
def EXPECTED_LANGUAGES : List String :=
  ["ar", "de", "es", "fr", "hi", "ja", "ko", "pt", "zh-Hans", "en"]

/-- `value.get('localizations', {})`. -/
def locsOf (e : Entry) : List (String × Localization) :=
  e.localizations.getD []

/-- `loc_data.get('stringUnit', {}).get('state')`. -/
def stateOf (loc : Localization) : Option String :=
  loc.stringUnit.bind (fun su => su.state)

/-- `EXPECTED_LANGUAGES - set(localizations.keys())`, listed in the fixed
order of `EXPECTED_LANGUAGES`. -/
def missingOf (e : Entry) : List String :=
  EXPECTED_LANGUAGES.filter (fun l => (lookupA (locsOf e) l).isNone)

/-- The `all_translated` check of `localization_analyzer.py` lines 50-55:
every existing localization has `stringUnit.state == 'translated'`. -/
def all_translated (locs : List (String × Localization)) : Bool :=
  locs.all (fun p => stateOf p.2 = some "translated")

/-- Outcome of one iteration of an analysis loop for a single entry. -/
inductive EntryClass where
  | excluded
  | complete
  | incompleteMissing (missing : List String)
  | incompleteState
deriving DecidableEq

/-- Whether an entry class lands in `incomplete_keys`. -/
def EntryClass.isIncomplete : EntryClass → Bool
  | .excluded => false
  | .complete => false
  | .incompleteMissing _ => true
  | .incompleteState => true

/-- The analysis dictionary built by `analyze_completeness` (the
completion percentage is computed from these fields afterwards). -/
structure Analysis where
  total_keys : Nat
  complete_keys : Nat
  incomplete_keys : List String
  missing_languages : List (String × List String)
  should_not_translate : Nat
deriving DecidableEq

/-- The `for key, value in strings.items()` accumulation loop shared by
both `analyze_completeness` implementations, parameterized by the
per-entry branch logic. -/
def scanWith (classify : Entry → EntryClass) : List (String × Entry) → Analysis
  | [] => ⟨0, 0, [], [], 0⟩
  | (k, e) :: rest =>
    let a := scanWith classify rest
    match classify e with
    | .excluded =>
        ⟨a.total_keys + 1, a.complete_keys, a.incomplete_keys,
          a.missing_languages, a.should_not_translate + 1⟩
    | .complete =>
        ⟨a.total_keys + 1, a.complete_keys + 1, a.incomplete_keys,
          a.missing_languages, a.should_not_translate⟩
    | .incompleteMissing m =>
        ⟨a.total_keys + 1, a.complete_keys, k :: a.incomplete_keys,
          (k, m) :: a.missing_languages, a.should_not_translate⟩
    | .incompleteState =>
        ⟨a.total_keys + 1, a.complete_keys, k :: a.incomplete_keys,
          a.missing_languages, a.should_not_translate⟩

/-- `completion_percentage` as computed in all the scripts:
`(complete_keys / translatable_keys) * 100` when `translatable_keys > 0`,
else the initial `0.0`. -/
def completion_percentage (a : Analysis) : ℚ :=
  if 0 < a.total_keys - a.should_not_translate then
    (a.complete_keys : ℚ) / ((a.total_keys - a.should_not_translate : Nat) : ℚ) * 100
  else 0

/-- Sequencing of a per-key repair step over the incomplete keys, the
shape of the `for key in analysis['incomplete_keys']` loop in both repair
scripts; `none` propagates an uncaught exception. -/
def runSteps
    (step : List (String × Entry) → String → Option (List (String × Entry))) :
    List String → List (String × Entry) → Option (List (String × Entry))
  | [], strs => some strs
  | key :: ks, strs =>
    match step strs key with
    | none => none
    | some strs2 => runSteps step ks strs2


namespace LocalizationAnalyzer

/-- Per-entry branch of `analyze_completeness` in
`localization_analyzer.py` (lines 36-60): excluded entries are skipped,
entries with missing languages are incomplete, and otherwise an entry is
complete exactly when all existing localizations are `translated`. -/
def classify (e : Entry) : EntryClass :=
  if e.shouldTranslate = some false then .excluded
  else if missingOf e ≠ [] then .incompleteMissing (missingOf e)
  else if all_translated (locsOf e) then .complete
  else .incompleteState

/-- `analyze_completeness` of `localization_analyzer.py`. -/
def analyze_completeness (d : Catalog) : Analysis :=
  scanWith classify d.strings

/-- The hardcoded `translation_map` of `generate_missing_translations`
(lines 115-128), with the exact code points of the source file. -/
def translation_map : List (String × List (String × String)) := [
  (" of ", [("ar", "\u0645\u0646"), ("de", "von"), ("es", "de"), ("fr", "de"), ("hi", "\u0915\u093e"), ("ja", "\u306e"), ("ko", "~\uc758"), ("pt", "de"), ("zh-Hans", "\u7684"), ("en", " of ")]),
  ("-", [("ar", "-"), ("de", "-"), ("es", "-"), ("fr", "-"), ("hi", "-"), ("ja", "-"), ("ko", "-"), ("pt", "-"), ("zh-Hans", "-"), ("en", "-")]),
  (":", [("ar", ":"), ("de", ":"), ("es", ":"), ("fr", ":"), ("hi", ":"), ("ja", ":"), ("ko", ":"), ("pt", ":"), ("zh-Hans", ":"), ("en", ":")])
]


/-- `generate_missing_translations` (lines 104-144). Returns `none` when
the Python code raises `KeyError` (an existing `en` localization without
a `stringUnit` carrying a `value`). -/
def generate_missing_translations (e : Entry) (key : String)
    (missing : List String) : Option (List (String × Localization)) :=
  (match lookupA (locsOf e) "en" with
   | some loc => loc.stringUnit.bind (fun su => su.value)
   | none => some key).map (fun english_value =>
    missing.map (fun lang =>
      (lang, ⟨some ⟨some "translated",
        some (((lookupA translation_map key).bind
          (fun m => lookupA m lang)).getD english_value)⟩⟩)))

/-- One iteration of the `for key in analysis['incomplete_keys']` loop of
`fix_localizations` (lines 153-162): look up the missing languages,
generate the translations, and write them into the entry's
`localizations` dict. Indexing `['localizations']` on an entry lacking
that key raises `KeyError`, modelled as `none`. -/
def fix_step (a : Analysis) (strs : List (String × Entry)) (key : String) :
    Option (List (String × Entry)) :=
  let missing := (lookupA a.missing_languages key).getD []
  if missing = [] then some strs
  else
    match lookupA strs key with
    | none => none
    | some e =>
      match generate_missing_translations e key missing with
      | none => none
      | some news =>
        match e.localizations with
        | none => none
        | some locs =>
          some (insertA strs key
            { e with
              localizations :=
                some (news.foldl (fun ls p => insertA ls p.1 p.2) locs) })

/-- Sequencing of `fix_step` over the incomplete keys. -/
def fix_go (a : Analysis) : List String → List (String × Entry) →
    Option (List (String × Entry)) :=
  runSteps (fix_step a)

/-- `fix_localizations` of `localization_analyzer.py` (lines 146-164).
`data.copy()` is a shallow copy, so `data['strings']` and
`fixed_data['strings']` are the same dict; the embedding therefore
threads a single evolving `strings` list. -/
def fix_localizations (d : Catalog) : Option Catalog :=
  (fix_go (analyze_completeness d) (analyze_completeness d).incomplete_keys
    d.strings).map Catalog.mk

end LocalizationAnalyzer

namespace LocalizationFixer

/-- Per-entry branch of `analyze_completeness` in
`localization_fixer.py` (lines 172-186): no translation-state check, an
entry with no missing language is counted complete. -/
def classify (e : Entry) : EntryClass :=
  if e.shouldTranslate = some false then .excluded
  else if missingOf e ≠ [] then .incompleteMissing (missingOf e)
  else .complete

/-- `analyze_completeness` of `localization_fixer.py`. -/
def analyze_completeness (d : Catalog) : Analysis :=
  scanWith classify d.strings

/-- The hardcoded `TRANSLATION_MAPPINGS` table (lines 16-149), with the
exact code points of the source file (the file is stored double-encoded,
so the non-Latin values are mojibake in the source itself). -/
def TRANSLATION_MAPPINGS : List (String × List (String × String)) := [
  ("Documentation", [("ar", "\u00d8\u00a7\u00d9\u201e\u00d8\u00aa\u00d9\u02c6\u00d8\u00ab\u00d9\u0160\u00d9\u201a"), ("de", "Dokumentation"), ("es", "Documentaci\u00c3\u00b3n"), ("fr", "Documentation"), ("hi", "\u00e0\u00a4\u00aa\u00e0\u00a5\u00e0\u00a4\u00b0\u00e0\u00a4\u00b2\u00e0\u00a5\u2021\u00e0\u00a4\u2013\u00e0\u00a4\u00a8"), ("ja", "\u00e3\u0192\u2030\u00e3\u201a\u00ad\u00e3\u0192\u00a5\u00e3\u0192\u00a1\u00e3\u0192\u00b3\u00e3\u0192\u02c6"), ("ko", "\u00eb\u00ac\u00b8\u00ec\u201e\u0153"), ("pt", "Documenta\u00c3\u00a7\u00c3\u00a3o"), ("zh-Hans", "\u00e6\u2013\u2021\u00e6\u00a1\u00a3"), ("en", "Documentation")]),
  ("Email Support", [("ar", "\u00d8\u00af\u00d8\u00b9\u00d9\u2026 \u00d8\u00a7\u00d9\u201e\u00d8\u00a8\u00d8\u00b1\u00d9\u0160\u00d8\u00af \u00d8\u00a7\u00d9\u201e\u00d8\u00a5\u00d9\u201e\u00d9\u0192\u00d8\u00aa\u00d8\u00b1\u00d9\u02c6\u00d9\u2020\u00d9\u0160"), ("de", "E-Mail-Support"), ("es", "Soporte por correo"), ("fr", "Support par e-mail"), ("hi", "\u00e0\u00a4\u02c6\u00e0\u00a4\u00ae\u00e0\u00a5\u2021\u00e0\u00a4\u00b2 \u00e0\u00a4\u00b8\u00e0\u00a4\u00ae\u00e0\u00a4\u00b0\u00e0\u00a5\u00e0\u00a4\u00a5\u00e0\u00a4\u00a8"), ("ja", "\u00e3\u0192\u00a1\u00e3\u0192\u00bc\u00e3\u0192\u00ab\u00e3\u201a\u00b5\u00e3\u0192\u00e3\u0192\u00bc\u00e3\u0192\u02c6"), ("ko", "\u00ec\u00b4\u00eb\u00a9\u201d\u00ec\u00bc \u00ec\u00a7\u20ac\u00ec\u203a"), ("pt", "Suporte por e-mail"), ("zh-Hans", "\u00e9\u201a\u00ae\u00e4\u00bb\u00b6\u00e6\u201d\u00af\u00e6\u0152"), ("en", "Email Support")]),
  ("Hide Completed Items", [("ar", "\u00d8\u00a5\u00d8\u00ae\u00d9\u00d8\u00a7\u00d8\u00a1 \u00d8\u00a7\u00d9\u201e\u00d8\u00b9\u00d9\u2020\u00d8\u00a7\u00d8\u00b5\u00d8\u00b1 \u00d8\u00a7\u00d9\u201e\u00d9\u2026\u00d9\u0192\u00d8\u00aa\u00d9\u2026\u00d9\u201e\u00d8\u00a9"), ("de", "Erledigte Elemente ausblenden"), ("es", "Ocultar elementos completados"), ("fr", "Masquer les \u00c3\u00a9l\u00c3\u00a9ments termin\u00c3\u00a9s"), ("hi", "\u00e0\u00a4\u00aa\u00e0\u00a5\u201a\u00e0\u00a4\u00b0\u00e0\u00a5\u00e0\u00a4\u00a3 \u00e0\u00a4\u2020\u00e0\u00a4\u2021\u00e0\u00a4\u0178\u00e0\u00a4\u00ae \u00e0\u00a4\u203a\u00e0\u00a5\u00e0\u00a4\u00aa\u00e0\u00a4\u00be\u00e0\u00a4\u00e0\u00a4\u201a"), ("ja", "\u00e5\u00ae\u0152\u00e4\u00ba\u2020\u00e3\u2014\u00e3\u0178\u00e3\u201a\u00a2\u00e3\u201a\u00a4\u00e3\u0192\u2020\u00e3\u0192\u00a0\u00e3\u201a\u2019\u00e9\u017e\u00e8\u00a1\u00a8\u00e7\u00a4\u00ba"), ("ko", "\u00ec\u2122\u201e\u00eb\u00a3\u0152\u00eb\u0153 \u00ed\u2022\u00ad\u00eb\u00aa\u00a9 \u00ec\u02c6\u00a8\u00ea\u00b8\u00b0\u00ea\u00b8\u00b0"), ("pt", "Ocultar itens conclu\u00c3\u00addos"), ("zh-Hans", "\u00e9\u0161\u00e8\u2014\u00e5\u00b7\u00b2\u00e5\u00ae\u0152\u00e6\u02c6\u00e9\u00a1\u00b9\u00e7\u203a\u00ae"), ("en", "Hide Completed Items")]),
  ("Organizes habits and tasks by time periods: Morning, Afternoon, Evening, and Today", [("ar", "\u00d9\u0160\u00d9\u2020\u00d8\u00b8\u00d9\u2026 \u00d8\u00a7\u00d9\u201e\u00d8\u00b9\u00d8\u00a7\u00d8\u00af\u00d8\u00a7\u00d8\u00aa \u00d9\u02c6\u00d8\u00a7\u00d9\u201e\u00d9\u2026\u00d9\u2021\u00d8\u00a7\u00d9\u2026 \u00d8\u00ad\u00d8\u00b3\u00d8\u00a8 \u00d8\u00a7\u00d9\u201e\u00d9\u00d8\u00aa\u00d8\u00b1\u00d8\u00a7\u00d8\u00aa \u00d8\u00a7\u00d9\u201e\u00d8\u00b2\u00d9\u2026\u00d9\u2020\u00d9\u0160\u00d8\u00a9: \u00d8\u00a7\u00d9\u201e\u00d8\u00b5\u00d8\u00a8\u00d8\u00a7\u00d8\u00ad\u00d8\u0152 \u00d8\u00a8\u00d8\u00b9\u00d8\u00af \u00d8\u00a7\u00d9\u201e\u00d8\u00b8\u00d9\u2021\u00d8\u00b1\u00d8\u0152 \u00d8\u00a7\u00d9\u201e\u00d9\u2026\u00d8\u00b3\u00d8\u00a7\u00d8\u00a1\u00d8\u0152 \u00d9\u02c6\u00d8\u00a7\u00d9\u201e\u00d9\u0160\u00d9\u02c6\u00d9\u2026"), ("de", "Organisiert Gewohnheiten und Aufgaben nach Tageszeiten: Morgen, Nachmittag, Abend und Heute"), ("es", "Organiza h\u00c3\u00a1bitos y tareas por per\u00c3\u00adodos de tiempo: Ma\u00c3\u00b1ana, Tarde, Noche y Hoy"), ("fr", "Organise les habitudes et t\u00c3\u00a2ches par p\u00c3\u00a9riodes : Matin, Apr\u00c3\u00a8s-midi, Soir et Aujourd\u0027hui"), ("hi", "\u00e0\u00a4\u00b8\u00e0\u00a4\u00ae\u00e0\u00a4\u00af \u00e0\u00a4\u2026\u00e0\u00a4\u00b5\u00e0\u00a4\u00a7\u00e0\u00a4\u00bf \u00e0\u00a4\u2022\u00e0\u00a5\u2021 \u00e0\u00a4\u2026\u00e0\u00a4\u00a8\u00e0\u00a5\u00e0\u00a4\u00b8\u00e0\u00a4\u00be\u00e0\u00a4\u00b0 \u00e0\u00a4\u2020\u00e0\u00a4\u00a6\u00e0\u00a4\u00a4\u00e0\u00a5\u2039\u00e0\u00a4\u201a \u00e0\u00a4\u201d\u00e0\u00a4\u00b0 \u00e0\u00a4\u2022\u00e0\u00a4\u00be\u00e0\u00a4\u00b0\u00e0\u00a5\u00e0\u00a4\u00af\u00e0\u00a5\u2039\u00e0\u00a4\u201a \u00e0\u00a4\u2022\u00e0\u00a5\u2039 \u00e0\u00a4\u00b5\u00e0\u00a5\u00e0\u00a4\u00af\u00e0\u00a4\u00b5\u00e0\u00a4\u00b8\u00e0\u00a5\u00e0\u00a4\u00a5\u00e0\u00a4\u00bf\u00e0\u00a4\u00a4 \u00e0\u00a4\u2022\u00e0\u00a4\u00b0\u00e0\u00a4\u00a4\u00e0\u00a4\u00be \u00e0\u00a4\u00b9\u00e0\u00a5\u02c6: \u00e0\u00a4\u00b8\u00e0\u00a5\u00e0\u00a4\u00ac\u00e0\u00a4\u00b9, \u00e0\u00a4\u00a6\u00e0\u00a5\u2039\u00e0\u00a4\u00aa\u00e0\u00a4\u00b9\u00e0\u00a4\u00b0, \u00e0\u00a4\u00b6\u00e0\u00a4\u00be\u00e0\u00a4\u00ae, \u00e0\u00a4\u201d\u00e0\u00a4\u00b0 \u00e0\u00a4\u2020\u00e0\u00a4\u0153"), ("ja", "\u00e7\u00bf\u2019\u00e6\u2026\u00a3\u00e3\u00a8\u00e3\u201a\u00bf\u00e3\u201a\u00b9\u00e3\u201a\u00af\u00e3\u201a\u2019\u00e6\u2122\u201a\u00e9\u2013\u201c\u00e5\u00b8\u00af\u00e5\u02c6\u00a5\u00e3\u00ab\u00e6\u2022\u00b4\u00e7\u2020\u00ef\u00bc\u0161\u00e6\u0153\u00e3\u20ac\u00e5\u02c6\u00e5\u00be\u0152\u00e3\u20ac\u00e5\u00a4\u2022\u00e6\u2013\u00b9\u00e3\u20ac\u00e4\u00bb\u0160\u00e6\u2014\u00a5"), ("ko", "\u00ec\u0160\u00b5\u00ea\u00b4\u20ac\u00ea\u00b3\u00bc \u00ec\u017e\u2018\u00ec\u2014\u2026\u00ec\u201e \u00ec\u2039\u0153\u00ea\u00b0\u201e\u00eb\u0152\u20ac\u00eb\u00b3\u201e\u00eb\u00a1\u0153 \u00ec\u00a0\u2022\u00eb\u00a6\u00ac: \u00ec\u2022\u201e\u00ec\u00b9\u00a8, \u00ec\u02dc\u00a4\u00ed\u203a\u201e, \u00ec\u00a0\u20ac\u00eb\u2026, \u00ec\u02dc\u00a4\u00eb\u0160\u02dc"), ("pt", "Organiza h\u00c3\u00a1bitos e tarefas por per\u00c3\u00adodos: Manh\u00c3\u00a3, Tarde, Noite e Hoje"), ("zh-Hans", "\u00e6\u0152\u2030\u00e6\u2014\u00b6\u00e9\u2014\u00b4\u00e6\u00ae\u00b5\u00e7\u00bb\u201e\u00e7\u00bb\u2021\u00e4\u00b9\u00a0\u00e6\u0192\u00af\u00e5\u2019\u0152\u00e4\u00bb\u00bb\u00e5\u0160\u00a1\u00ef\u00bc\u0161\u00e4\u00b8\u0160\u00e5\u02c6\u00e3\u20ac\u00e4\u00b8\u2039\u00e5\u02c6\u00e3\u20ac\u00e6\u2122\u0161\u00e4\u00b8\u0160\u00e5\u2019\u0152\u00e4\u00bb\u0160\u00e5\u00a4\u00a9"), ("en", "Organizes habits and tasks by time periods: Morning, Afternoon, Evening, and Today")]),
  ("Hides completed habits and tasks from view", [("ar", "\u00d9\u0160\u00d8\u00ae\u00d9\u00d9\u0160 \u00d8\u00a7\u00d9\u201e\u00d8\u00b9\u00d8\u00a7\u00d8\u00af\u00d8\u00a7\u00d8\u00aa \u00d9\u02c6\u00d8\u00a7\u00d9\u201e\u00d9\u2026\u00d9\u2021\u00d8\u00a7\u00d9\u2026 \u00d8\u00a7\u00d9\u201e\u00d9\u2026\u00d9\u0192\u00d8\u00aa\u00d9\u2026\u00d9\u201e\u00d8\u00a9 \u00d9\u2026\u00d9\u2020 \u00d8\u00a7\u00d9\u201e\u00d8\u00b9\u00d8\u00b1\u00d8\u00b6"), ("de", "Blendet erledigte Gewohnheiten und Aufgaben aus"), ("es", "Oculta h\u00c3\u00a1bitos y tareas completados de la vista"), ("fr", "Cache les habitudes et t\u00c3\u00a2ches termin\u00c3\u00a9es"), ("hi", "\u00e0\u00a4\u00aa\u00e0\u00a5\u201a\u00e0\u00a4\u00b0\u00e0\u00a5\u00e0\u00a4\u00a3 \u00e0\u00a4\u2020\u00e0\u00a4\u00a6\u00e0\u00a4\u00a4\u00e0\u00a5\u2039\u00e0\u00a4\u201a \u00e0\u00a4\u201d\u00e0\u00a4\u00b0 \u00e0\u00a4\u2022\u00e0\u00a4\u00be\u00e0\u00a4\u00b0\u00e0\u00a5\u00e0\u00a4\u00af\u00e0\u00a5\u2039\u00e0\u00a4\u201a \u00e0\u00a4\u2022\u00e0\u00a5\u2039 \u00e0\u00a4\u00a6\u00e0\u00a5\u0192\u00e0\u00a4\u00b6\u00e0\u00a5\u00e0\u00a4\u00af \u00e0\u00a4\u00b8\u00e0\u00a5\u2021 \u00e0\u00a4\u203a\u00e0\u00a5\u00e0\u00a4\u00aa\u00e0\u00a4\u00be\u00e0\u00a4\u00a4\u00e0\u00a4\u00be \u00e0\u00a4\u00b9\u00e0\u00a5\u02c6"), ("ja", "\u00e5\u00ae\u0152\u00e4\u00ba\u2020\u00e3\u2014\u00e3\u0178\u00e7\u00bf\u2019\u00e6\u2026\u00a3\u00e3\u00a8\u00e3\u201a\u00bf\u00e3\u201a\u00b9\u00e3\u201a\u00af\u00e3\u201a\u2019\u00e9\u017e\u00e8\u00a1\u00a8\u00e7\u00a4\u00ba\u00e3\u00ab\u00e3\u2014\u00e3\u00be\u00e3\u2122"), ("ko", "\u00ec\u2122\u201e\u00eb\u00a3\u0152\u00eb\u0153 \u00ec\u0160\u00b5\u00ea\u00b4\u20ac\u00ea\u00b3\u00bc \u00ec\u017e\u2018\u00ec\u2014\u2026\u00ec\u201e \u00eb\u00b3\u00b4\u00ea\u00b8\u00b0\u00ec\u2014\u00ec\u201e\u0153 \u00ec\u02c6\u00a8\u00ea\u00b9\u00eb\u2039\u02c6\u00eb\u2039\u00a4"), ("pt", "Oculta h\u00c3\u00a1bitos e tarefas conclu\u00c3\u00addos da visualiza\u00c3\u00a7\u00c3\u00a3o"), ("zh-Hans", "\u00e4\u00bb\u017d\u00e8\u00a7\u2020\u00e5\u203a\u00be\u00e4\u00b8\u00ad\u00e9\u0161\u00e8\u2014\u00e5\u00b7\u00b2\u00e5\u00ae\u0152\u00e6\u02c6\u00e7\u0161\u201e\u00e4\u00b9\u00a0\u00e6\u0192\u00af\u00e5\u2019\u0152\u00e4\u00bb\u00bb\u00e5\u0160\u00a1"), ("en", "Hides completed habits and tasks from view")]),
  ("Time-Based Filtering", [("ar", "\u00d8\u00a7\u00d9\u201e\u00d8\u00aa\u00d8\u00b5\u00d9\u00d9\u0160\u00d8\u00a9 \u00d8\u00a7\u00d9\u201e\u00d9\u201a\u00d8\u00a7\u00d8\u00a6\u00d9\u2026\u00d8\u00a9 \u00d8\u00b9\u00d9\u201e\u00d9\u2030 \u00d8\u00a7\u00d9\u201e\u00d9\u02c6\u00d9\u201a\u00d8\u00aa"), ("de", "Zeitbasierte Filterung"), ("es", "Filtrado basado en tiempo"), ("fr", "Filtrage temporel"), ("hi", "\u00e0\u00a4\u00b8\u00e0\u00a4\u00ae\u00e0\u00a4\u00af-\u00e0\u00a4\u2020\u00e0\u00a4\u00a7\u00e0\u00a4\u00be\u00e0\u00a4\u00b0\u00e0\u00a4\u00bf\u00e0\u00a4\u00a4 \u00e0\u00a4\u00ab\u00e0\u00a4\u00bc\u00e0\u00a4\u00bf\u00e0\u00a4\u00b2\u00e0\u00a5\u00e0\u00a4\u0178\u00e0\u00a4\u00b0\u00e0\u00a4\u00bf\u00e0\u00a4\u201a\u00e0\u00a4\u2014"), ("ja", "\u00e6\u2122\u201a\u00e9\u2013\u201c\u00e3\u0192\u2122\u00e3\u0192\u00bc\u00e3\u201a\u00b9\u00e3\u0192\u2022\u00e3\u201a\u00a3\u00e3\u0192\u00ab\u00e3\u201a\u00bf\u00e3\u0192\u00aa\u00e3\u0192\u00b3\u00e3\u201a\u00b0"), ("ko", "\u00ec\u2039\u0153\u00ea\u00b0\u201e \u00ea\u00b8\u00b0\u00eb\u00b0\u02dc \u00ed\u2022\u201e\u00ed\u201e\u00b0\u00eb\u00a7"), ("pt", "Filtragem baseada em tempo"), ("zh-Hans", "\u00e5\u0178\u00ba\u00e4\u00ba\u017d\u00e6\u2014\u00b6\u00e9\u2014\u00b4\u00e7\u0161\u201e\u00e8\u00bf\u2021\u00e6\u00bb\u00a4"), ("en", "Time-Based Filtering")]),
  ("View Options", [("ar", "\u00d8\u00ae\u00d9\u0160\u00d8\u00a7\u00d8\u00b1\u00d8\u00a7\u00d8\u00aa \u00d8\u00a7\u00d9\u201e\u00d8\u00b9\u00d8\u00b1\u00d8\u00b6"), ("de", "Ansichtsoptionen"), ("es", "Opciones de vista"), ("fr", "Options d\u0027affichage"), ("hi", "\u00e0\u00a4\u00a6\u00e0\u00a5\u0192\u00e0\u00a4\u00b6\u00e0\u00a5\u00e0\u00a4\u00af \u00e0\u00a4\u00b5\u00e0\u00a4\u00bf\u00e0\u00a4\u2022\u00e0\u00a4\u00b2\u00e0\u00a5\u00e0\u00a4\u00aa"), ("ja", "\u00e8\u00a1\u00a8\u00e7\u00a4\u00ba\u00e3\u201a\u00aa\u00e3\u0192\u2014\u00e3\u201a\u00b7\u00e3\u0192\u00a7\u00e3\u0192\u00b3"), ("ko", "\u00eb\u00b3\u00b4\u00ea\u00b8\u00b0 \u00ec\u02dc\u00b5\u00ec\u2026\u02dc"), ("pt", "Op\u00c3\u00a7\u00c3\u00b5es de visualiza\u00c3\u00a7\u00c3\u00a3o"), ("zh-Hans", "\u00e6\u0178\u00a5\u00e7\u0153\u2039\u00e9\u20ac\u2030\u00e9\u00a1\u00b9"), ("en", "View Options")]),
  ("Nothing to do.", [("ar", "\u00d9\u201e\u00d8\u00a7 \u00d9\u0160\u00d9\u02c6\u00d8\u00ac\u00d8\u00af \u00d8\u00b4\u00d9\u0160\u00d8\u00a1 \u00d9\u201e\u00d9\u201e\u00d9\u201a\u00d9\u0160\u00d8\u00a7\u00d9\u2026 \u00d8\u00a8\u00d9\u2021."), ("de", "Nichts zu tun."), ("es", "Nada que hacer."), ("fr", "Rien \u00c3\u00a0 faire."), ("hi", "\u00e0\u00a4\u2022\u00e0\u00a5\u00e0\u00a4\u203a \u00e0\u00a4\u00a8\u00e0\u00a4\u00b9\u00e0\u00a5\u20ac\u00e0\u00a4\u201a \u00e0\u00a4\u2022\u00e0\u00a4\u00b0\u00e0\u00a4\u00a8\u00e0\u00a4\u00be."), ("ja", "\u00e3\u201a\u201e\u00e3\u201a\u2039\u00e3\u201c\u00e3\u00a8\u00e3\u00af\u00e3\u201a\u00e3\u201a\u0160\u00e3\u00be\u00e3\u203a\u00e3\u201a\u201c\u00e3\u20ac\u201a"), ("ko", "\u00ed\u2022\u00a0 \u00ec\u00bc\u00ec\u00b4 \u00ec\u2014\u2020\u00ec\u0160\u00b5\u00eb\u2039\u02c6\u00eb\u2039\u00a4."), ("pt", "Nada para fazer."), ("zh-Hans", "\u00e6\u2014\u00a0\u00e4\u00ba\u2039\u00e5\u00af\u00e5\u0161\u00e3\u20ac\u201a"), ("en", "Nothing to do.")]),
  ("Habit Reminders", [("ar", "\u00d8\u00aa\u00d8\u00b0\u00d9\u0192\u00d9\u0160\u00d8\u00b1\u00d8\u00a7\u00d8\u00aa \u00d8\u00a7\u00d9\u201e\u00d8\u00b9\u00d8\u00a7\u00d8\u00af\u00d8\u00a7\u00d8\u00aa"), ("de", "Gewohnheitserinnerungen"), ("es", "Recordatorios de h\u00c3\u00a1bitos"), ("fr", "Rappels d\u0027habitudes"), ("hi", "\u00e0\u00a4\u2020\u00e0\u00a4\u00a6\u00e0\u00a4\u00a4 \u00e0\u00a4\u2026\u00e0\u00a4\u00a8\u00e0\u00a5\u00e0\u00a4\u00b8\u00e0\u00a5\u00e0\u00a4\u00ae\u00e0\u00a4\u00be\u00e0\u00a4\u00b0\u00e0\u00a4\u2022"), ("ja", "\u00e7\u00bf\u2019\u00e6\u2026\u00a3\u00e3\u0192\u00aa\u00e3\u0192\u017e\u00e3\u201a\u00a4\u00e3\u0192\u00b3\u00e3\u0192\u20ac\u00e3\u0192\u00bc"), ("ko", "\u00ec\u0160\u00b5\u00ea\u00b4\u20ac \u00ec\u2022\u0152\u00eb\u00a6\u00bc"), ("pt", "Lembretes de h\u00c3\u00a1bitos"), ("zh-Hans", "\u00e4\u00b9\u00a0\u00e6\u0192\u00af\u00e6\u00e9\u2020\u2019"), ("en", "Habit Reminders")]),
  ("Enable reminders", [("ar", "\u00d8\u00aa\u00d9\u2026\u00d9\u0192\u00d9\u0160\u00d9\u2020 \u00d8\u00a7\u00d9\u201e\u00d8\u00aa\u00d8\u00b0\u00d9\u0192\u00d9\u0160\u00d8\u00b1\u00d8\u00a7\u00d8\u00aa"), ("de", "Erinnerungen aktivieren"), ("es", "Habilitar recordatorios"), ("fr", "Activer les rappels"), ("hi", "\u00e0\u00a4\u2026\u00e0\u00a4\u00a8\u00e0\u00a5\u00e0\u00a4\u00b8\u00e0\u00a5\u00e0\u00a4\u00ae\u00e0\u00a4\u00be\u00e0\u00a4\u00b0\u00e0\u00a4\u2022 \u00e0\u00a4\u00b8\u00e0\u00a4\u2022\u00e0\u00a5\u00e0\u00a4\u00b7\u00e0\u00a4\u00ae \u00e0\u00a4\u2022\u00e0\u00a4\u00b0\u00e0\u00a5\u2021\u00e0\u00a4\u201a"), ("ja", "\u00e3\u0192\u00aa\u00e3\u0192\u017e\u00e3\u201a\u00a4\u00e3\u0192\u00b3\u00e3\u0192\u20ac\u00e3\u0192\u00bc\u00e3\u201a\u2019\u00e6\u0153\u2030\u00e5\u0160\u00b9\u00e3\u00ab\u00e3\u2122\u00e3\u201a\u2039"), ("ko", "\u00ec\u2022\u0152\u00eb\u00a6\u00bc \u00ed\u2122\u0153\u00ec\u201e\u00b1\u00ed\u2122\u201d"), ("pt", "Ativar lembretes"), ("zh-Hans", "\u00e5\u00af\u00e7\u201d\u00a8\u00e6\u00e9\u2020\u2019"), ("en", "Enable reminders")]),
  ("All reminders disabled", [("ar", "\u00d8\u00ac\u00d9\u2026\u00d9\u0160\u00d8\u00b9 \u00d8\u00a7\u00d9\u201e\u00d8\u00aa\u00d8\u00b0\u00d9\u0192\u00d9\u0160\u00d8\u00b1\u00d8\u00a7\u00d8\u00aa \u00d9\u2026\u00d8\u00b9\u00d8\u00b7\u00d9\u201e\u00d8\u00a9"), ("de", "Alle Erinnerungen deaktiviert"), ("es", "Todos los recordatorios desactivados"), ("fr", "Tous les rappels d\u00c3\u00a9sactiv\u00c3\u00a9s"), ("hi", "\u00e0\u00a4\u00b8\u00e0\u00a4\u00ad\u00e0\u00a5\u20ac \u00e0\u00a4\u2026\u00e0\u00a4\u00a8\u00e0\u00a5\u00e0\u00a4\u00b8\u00e0\u00a5\u00e0\u00a4\u00ae\u00e0\u00a4\u00be\u00e0\u00a4\u00b0\u00e0\u00a4\u2022 \u00e0\u00a4\u2026\u00e0\u00a4\u2022\u00e0\u00a5\u00e0\u00a4\u00b7\u00e0\u00a4\u00ae"), ("ja", "\u00e3\u2122\u00e3\u00b9\u00e3\u00a6\u00e3\u00ae\u00e3\u0192\u00aa\u00e3\u0192\u017e\u00e3\u201a\u00a4\u00e3\u0192\u00b3\u00e3\u0192\u20ac\u00e3\u0192\u00bc\u00e3\u0152\u00e7\u201e\u00a1\u00e5\u0160\u00b9"), ("ko", "\u00eb\u00aa\u00a8\u00eb\u201c\u00a0 \u00ec\u2022\u0152\u00eb\u00a6\u00bc\u00ec\u00b4 \u00eb\u00b9\u201e\u00ed\u2122\u0153\u00ec\u201e\u00b1\u00ed\u2122\u201d\u00eb\u00a8"), ("pt", "Todos os lembretes desativados"), ("zh-Hans", "\u00e6\u2030\u20ac\u00e6\u0153\u2030\u00e6\u00e9\u2020\u2019\u00e5\u00b7\u00b2\u00e7\u00a6\u00e7\u201d\u00a8"), ("en", "All reminders disabled")])
]

/-- `get_translation_value` (lines 195-213). Returns `none` when the
Python code raises `KeyError` (the `en` localization present in
`existing_localizations` lacks a `stringUnit` with a `value`). -/
def get_translation_value (key lang : String)
    (existing : List (String × Localization)) : Option String :=
  match (lookupA TRANSLATION_MAPPINGS key).bind (fun m => lookupA m lang) with
  | some v => some v
  | none =>
    if lang = "en" then some key
    else
      match lookupA existing "en" with
      | some loc =>
        (loc.stringUnit.bind (fun su => su.value)).map (fun english_value =>
          ((lookupA TRANSLATION_MAPPINGS english_value).bind
            (fun m => lookupA m lang)).getD english_value)
      | none => some key

/-- The `for lang in missing_languages` insertion loop (lines 233-241).
When the entry had a `localizations` dict, `existing_localizations`
aliases the dict being filled, so lookups see earlier insertions
(`aliased = true`); when the key was absent, `existing_localizations` is
a fresh empty dict and stays empty (`aliased = false`). -/
def add_go (key : String) (aliased : Bool) :
    List String → List (String × Localization) →
    Option (List (String × Localization))
  | [], locs => some locs
  | lang :: ls, locs =>
    match get_translation_value key lang (if aliased then locs else []) with
    | none => none
    | some v =>
      add_go key aliased ls (insertA locs lang ⟨some ⟨some "translated", some v⟩⟩)

/-- One iteration of the `for key in analysis['incomplete_keys']` loop of
`fix_localizations` (lines 223-244). -/
def fix_step (a : Analysis) (strs : List (String × Entry)) (key : String) :
    Option (List (String × Entry)) :=
  let missing := (lookupA a.missing_languages key).getD []
  if missing = [] then some strs
  else
    match lookupA strs key with
    | none => none
    | some e =>
      match e.localizations with
      | some locs =>
        (add_go key true missing locs).map (fun locs2 =>
          insertA strs key { e with localizations := some locs2 })
      | none =>
        (add_go key false missing []).map (fun locs2 =>
          insertA strs key { e with localizations := some locs2 })

/-- Sequencing of `fix_step` over the incomplete keys. -/
def fix_go (a : Analysis) : List String → List (String × Entry) →
    Option (List (String × Entry)) :=
  runSteps (fix_step a)

/-- `fix_localizations` of `localization_fixer.py` (lines 215-247),
operating on the deep copy `json.loads(json.dumps(data))`. -/
def fix_localizations (d : Catalog) : Option Catalog :=
  (fix_go (analyze_completeness d) (analyze_completeness d).incomplete_keys
    d.strings).map Catalog.mk

end LocalizationFixer

namespace FixLocalizations

/-- The state-coercion step of `fix_localizations.py` lines 45-50: a
localization with a `stringUnit` whose `state` is absent or differs from
`translated` gets `state` forced to `translated`; a localization without
a `stringUnit` is left alone. -/
def fix_loc (loc : Localization) : Localization :=
  match loc.stringUnit with
  | none => loc
  | some su =>
    if su.state = none then ⟨some { su with state := some "translated" }⟩
    else if su.state ≠ some "translated" then
      ⟨some { su with state := some "translated" }⟩
    else loc

/-- The body of the `for string_key, string_data in data['strings'].items()`
loop of `fix_localizations.py` (lines 20-50): skip excluded entries and
entries without a `localizations` key; synthesize `en` from the string key
when it is absent and at least one other language is present; then coerce
every localization's state. -/
def fix_entry (key : String) (e : Entry) : Entry :=
  if e.shouldTranslate = some false then e
  else
    match e.localizations with
    | none => e
    | some locs =>
      let locs1 :=
        if (lookupA locs "en").isNone ∧ 0 < locs.length then
          insertA locs "en" ⟨some ⟨some "translated", some key⟩⟩
        else locs
      { e with localizations := some (locs1.map (fun p => (p.1, fix_loc p.2))) }

/-- `fix_localizations` of `fix_localizations.py` (the Normalizer pass),
restricted to its in-memory transformation of the document. -/
def fix_localizations (d : Catalog) : Catalog :=
  ⟨d.strings.map (fun p => (p.1, fix_entry p.1 p.2))⟩

end FixLocalizations

namespace LocalizationStatus

/-- The result fields accumulated by `check_localization_status`. -/
structure Status where
  total_keys : Nat
  should_not_translate : Nat
  complete_keys : Nat
deriving DecidableEq

/-- The completeness test of `localization_status.py` line 40:
`expected_languages.issubset(available_languages)`. -/
def entry_complete (e : Entry) : Bool :=
  EXPECTED_LANGUAGES.all (fun l => (lookupA (locsOf e) l).isSome)

/-- The counting loop of `check_localization_status` (lines 32-41). -/
def scan : List (String × Entry) → Status
  | [] => ⟨0, 0, 0⟩
  | (_, e) :: rest =>
    let s := scan rest
    if e.shouldTranslate = some false then
      ⟨s.total_keys + 1, s.should_not_translate + 1, s.complete_keys⟩
    else if entry_complete e then
      ⟨s.total_keys + 1, s.should_not_translate, s.complete_keys + 1⟩
    else
      ⟨s.total_keys + 1, s.should_not_translate, s.complete_keys⟩

/-- `completion_percentage` of `localization_status.py` line 44. -/
def status_percentage (s : Status) : ℚ :=
  if 0 < s.total_keys - s.should_not_translate then
    (s.complete_keys : ℚ) / ((s.total_keys - s.should_not_translate : Nat) : ℚ) * 100
  else 0

/-- The computation core of `check_localization_status` (lines 25-44). -/
def check_localization_status (d : Catalog) : Status :=
  scan d.strings

end LocalizationStatus

/-! Association-list lemmas. -/

theorem lookupA_insertA {α : Type} (xs : List (String × α)) (k k2 : String) (v : α) :
    lookupA (insertA xs k v) k2 = if k = k2 then some v else lookupA xs k2 := by
  induction xs with
  | nil => simp [insertA, lookupA]
  | cons p rest ih =>
    obtain ⟨a, w⟩ := p
    by_cases hak : a = k
    · subst hak
      by_cases h : a = k2 <;> simp [insertA, lookupA, h]
    · by_cases h : a = k2
      · subst h
        simp [insertA, lookupA, hak, Ne.symm hak]
      · simp [insertA, lookupA, hak, h, ih]

theorem lookupA_map_entries {α β : Type} (f : String → α → β)
    (xs : List (String × α)) (k : String) :
    lookupA (xs.map (fun p => (p.1, f p.1 p.2))) k = (lookupA xs k).map (f k) := by
  induction xs with
  | nil => rfl
  | cons p rest ih =>
    obtain ⟨a, w⟩ := p
    by_cases h : a = k
    · subst h; simp [lookupA]
    · simp [lookupA, h, ih]

theorem mem_of_lookupA_eq_some {α : Type} {xs : List (String × α)} {k : String} {v : α}
    (h : lookupA xs k = some v) : (k, v) ∈ xs := by
  induction xs with
  | nil => simp [lookupA] at h
  | cons p rest ih =>
    obtain ⟨a, w⟩ := p
    by_cases hak : a = k
    · subst hak
      simp [lookupA] at h
      simp [h]
    · simp [lookupA, hak] at h
      exact List.mem_cons_of_mem _ (ih h)

theorem lookupA_isSome_of_mem {α : Type} {xs : List (String × α)} {k : String} {v : α}
    (h : (k, v) ∈ xs) : (lookupA xs k).isSome := by
  induction xs with
  | nil => simp at h
  | cons p rest ih =>
    obtain ⟨a, w⟩ := p
    by_cases hak : a = k
    · subst hak; simp [lookupA]
    · rcases List.mem_cons.mp h with h1 | h1
      · cases h1; simp at hak
      · simp [lookupA, hak, ih h1]

theorem lookupA_eq_none_of_not_mem {α : Type} {xs : List (String × α)} {k : String}
    (h : k ∉ xs.map Prod.fst) : lookupA xs k = none := by
  induction xs with
  | nil => rfl
  | cons p rest ih =>
    obtain ⟨a, w⟩ := p
    simp only [List.map_cons, List.mem_cons, not_or] at h
    have hak : a ≠ k := fun hx => h.1 hx.symm
    simp [lookupA, hak, ih h.2]

theorem mem_unique_of_nodup {α : Type} {xs : List (String × α)} {k : String} {v v2 : α}
    (hnd : (xs.map Prod.fst).Nodup) (h1 : (k, v) ∈ xs) (h2 : (k, v2) ∈ xs) : v = v2 := by
  induction xs with
  | nil => simp at h1
  | cons p rest ih =>
    obtain ⟨a, w⟩ := p
    simp only [List.map_cons, List.nodup_cons] at hnd
    rcases List.mem_cons.mp h1 with e1 | e1 <;> rcases List.mem_cons.mp h2 with e2 | e2
    · rw [Prod.mk.injEq] at e1 e2
      exact e1.2.trans e2.2.symm
    · rw [Prod.mk.injEq] at e1
      have hmem : k ∈ List.map Prod.fst rest := List.mem_map.mpr ⟨(k, v2), e2, rfl⟩
      rw [e1.1] at hmem
      exact absurd hmem hnd.1
    · rw [Prod.mk.injEq] at e2
      have hmem : k ∈ List.map Prod.fst rest := List.mem_map.mpr ⟨(k, v), e1, rfl⟩
      rw [e2.1] at hmem
      exact absurd hmem hnd.1
    · exact ih hnd.2 e1 e2

theorem lookupA_eq_some_of_mem_nodup {α : Type} {xs : List (String × α)} {k : String} {v : α}
    (hnd : (xs.map Prod.fst).Nodup) (h : (k, v) ∈ xs) : lookupA xs k = some v := by
  obtain ⟨v2, hv2⟩ := Option.isSome_iff_exists.mp (lookupA_isSome_of_mem h)
  rw [hv2]
  exact congrArg some (mem_unique_of_nodup hnd (mem_of_lookupA_eq_some hv2) h)

/-! Characterizations of the analysis scan. -/

theorem scanWith_total (c : Entry → EntryClass) (strs : List (String × Entry)) :
    (scanWith c strs).total_keys = strs.length := by
  induction strs with
  | nil => rfl
  | cons p rest ih =>
    obtain ⟨k, e⟩ := p
    cases h : c e <;> simp [scanWith, h, ih]

theorem scanWith_snt (c : Entry → EntryClass) (strs : List (String × Entry)) :
    (scanWith c strs).should_not_translate =
      strs.countP (fun p => c p.2 = EntryClass.excluded) := by
  induction strs with
  | nil => rfl
  | cons p rest ih =>
    obtain ⟨k, e⟩ := p
    cases h : c e <;> simp [scanWith, h, ih, List.countP_cons]

theorem scanWith_complete (c : Entry → EntryClass) (strs : List (String × Entry)) :
    (scanWith c strs).complete_keys =
      strs.countP (fun p => c p.2 = EntryClass.complete) := by
  induction strs with
  | nil => rfl
  | cons p rest ih =>
    obtain ⟨k, e⟩ := p
    cases h : c e <;> simp [scanWith, h, ih, List.countP_cons]

theorem scanWith_incomplete (c : Entry → EntryClass) (strs : List (String × Entry)) :
    (scanWith c strs).incomplete_keys =
      (strs.filter (fun p => (c p.2).isIncomplete)).map Prod.fst := by
  induction strs with
  | nil => rfl
  | cons p rest ih =>
    obtain ⟨k, e⟩ := p
    cases h : c e <;> simp [scanWith, h, ih, List.filter_cons, EntryClass.isIncomplete]

theorem scanWith_missing (c : Entry → EntryClass) (strs : List (String × Entry)) :
    (scanWith c strs).missing_languages =
      strs.filterMap (fun p =>
        match c p.2 with
        | .incompleteMissing m => some (p.1, m)
        | _ => none) := by
  induction strs with
  | nil => rfl
  | cons p rest ih =>
    obtain ⟨k, e⟩ := p
    cases h : c e <;> simp [scanWith, h, ih, List.filterMap_cons]

theorem mem_incomplete_of_mem (c : Entry → EntryClass) {strs : List (String × Entry)}
    {k : String} {e : Entry} (hm : (k, e) ∈ strs) (hc : (c e).isIncomplete = true) :
    k ∈ (scanWith c strs).incomplete_keys := by
  rw [scanWith_incomplete]
  exact List.mem_map.mpr ⟨(k, e), List.mem_filter.mpr ⟨hm, hc⟩, rfl⟩

theorem not_mem_incomplete (c : Entry → EntryClass) {strs : List (String × Entry)}
    {k : String} {e : Entry} (hnd : (strs.map Prod.fst).Nodup)
    (he : lookupA strs k = some e) (hc : (c e).isIncomplete = false) :
    k ∉ (scanWith c strs).incomplete_keys := by
  rw [scanWith_incomplete]
  intro hmem
  obtain ⟨p, hp, hfst⟩ := List.mem_map.mp hmem
  obtain ⟨hpmem, hpinc⟩ := List.mem_filter.mp hp
  obtain ⟨k2, e2⟩ := p
  simp only at hfst
  subst hfst
  have hee : e = e2 := mem_unique_of_nodup hnd (mem_of_lookupA_eq_some he) hpmem
  rw [← hee, hc] at hpinc
  exact Bool.false_ne_true hpinc

theorem lookupA_scan_missing_none (c : Entry → EntryClass)
    {strs : List (String × Entry)} {k : String} (h : k ∉ strs.map Prod.fst) :
    lookupA (scanWith c strs).missing_languages k = none := by
  induction strs with
  | nil => rfl
  | cons p rest ih =>
    obtain ⟨a, e⟩ := p
    simp only [List.map_cons, List.mem_cons, not_or] at h
    have hak : a ≠ k := fun hx => h.1 hx.symm
    cases hc : c e <;> simp [scanWith, hc, lookupA, hak, ih h.2]

theorem lookupA_scan_missing (c : Entry → EntryClass) {strs : List (String × Entry)}
    {k : String} {e : Entry} (hnd : (strs.map Prod.fst).Nodup)
    (he : lookupA strs k = some e) :
    lookupA (scanWith c strs).missing_languages k =
      match c e with
      | .incompleteMissing m => some m
      | _ => none := by
  induction strs with
  | nil => simp [lookupA] at he
  | cons p rest ih =>
    obtain ⟨a, e0⟩ := p
    simp only [List.map_cons, List.nodup_cons] at hnd
    by_cases hak : a = k
    · subst hak
      simp [lookupA] at he
      subst he
      cases hc : c e0 <;>
        simp [scanWith, hc, lookupA, lookupA_scan_missing_none c hnd.1]
    · simp only [lookupA, hak, if_false, if_neg hak] at he
      cases hc : c e0 <;> simp [scanWith, hc, lookupA, hak, ih hnd.2 he]

/-! Generic lemmas about the repair loop. -/

theorem runSteps_preserve_not_mem
    (step : List (String × Entry) → String → Option (List (String × Entry)))
    (k : String)
    (hother : ∀ strs key strs2, step strs key = some strs2 → key ≠ k →
      lookupA strs2 k = lookupA strs k) :
    ∀ keys strs strs2, k ∉ keys → runSteps step keys strs = some strs2 →
      lookupA strs2 k = lookupA strs k := by
  intro keys
  induction keys with
  | nil =>
    intro strs strs2 _ h
    simp only [runSteps, Option.some.injEq] at h
    rw [← h]
  | cons key ks ih =>
    intro strs strs2 hk h
    simp only [runSteps] at h
    cases hs : step strs key with
    | none => rw [hs] at h; exact absurd h (by simp)
    | some strs1 =>
      rw [hs] at h
      have hkk : key ≠ k := fun hx => hk (hx ▸ List.mem_cons_self key ks)
      rw [ih strs1 strs2 (fun hx => hk (List.mem_cons_of_mem key hx)) h]
      exact hother strs key strs1 hs hkk

theorem runSteps_preserve_self
    (step : List (String × Entry) → String → Option (List (String × Entry)))
    (k : String)
    (hother : ∀ strs key strs2, step strs key = some strs2 → key ≠ k →
      lookupA strs2 k = lookupA strs k)
    (hself : ∀ strs, step strs k = some strs) :
    ∀ keys strs strs2, runSteps step keys strs = some strs2 →
      lookupA strs2 k = lookupA strs k := by
  intro keys
  induction keys with
  | nil =>
    intro strs strs2 h
    simp only [runSteps, Option.some.injEq] at h
    rw [← h]
  | cons key ks ih =>
    intro strs strs2 h
    simp only [runSteps] at h
    cases hs : step strs key with
    | none => rw [hs] at h; exact absurd h (by simp)
    | some strs1 =>
      rw [hs] at h
      by_cases hkk : key = k
      · subst hkk
        rw [hself strs, Option.some.injEq] at hs
        subst hs
        exact ih _ strs2 h
      · rw [ih strs1 strs2 h]
        exact hother strs key strs1 hs hkk

theorem runSteps_process
    (step : List (String × Entry) → String → Option (List (String × Entry)))
    (k : String) (P : Entry → Prop) (e0 : Entry)
    (hother : ∀ strs key strs2, step strs key = some strs2 → key ≠ k →
      lookupA strs2 k = lookupA strs k)
    (hproc : ∀ strs strs2, lookupA strs k = some e0 → step strs k = some strs2 →
      ∃ e2, lookupA strs2 k = some e2 ∧ P e2) :
    ∀ keys strs strs2, keys.Nodup → k ∈ keys → lookupA strs k = some e0 →
      runSteps step keys strs = some strs2 →
      ∃ e2, lookupA strs2 k = some e2 ∧ P e2 := by
  intro keys
  induction keys with
  | nil =>
    intro strs strs2 _ hk
    simp at hk
  | cons key ks ih =>
    intro strs strs2 hnd hk h0 h
    simp only [runSteps] at h
    cases hs : step strs key with
    | none => rw [hs] at h; exact absurd h (by simp)
    | some strs1 =>
      rw [hs] at h
      by_cases hkk : key = k
      · subst hkk
        obtain ⟨e2, he2, hP⟩ := hproc strs strs1 h0 hs
        have hnotin : key ∉ ks := (List.nodup_cons.mp hnd).1
        have hpres := runSteps_preserve_not_mem step key hother ks strs1 strs2 hnotin h
        exact ⟨e2, hpres ▸ he2, hP⟩
      · have hk2 : k ∈ ks := by
          rcases List.mem_cons.mp hk with h1 | h1
          · exact absurd h1.symm hkk
          · exact h1
        have h02 : lookupA strs1 k = some e0 := by
          rw [hother strs key strs1 hs hkk]; exact h0
        exact ih strs1 strs2 (List.nodup_cons.mp hnd).2 hk2 h02 h

theorem runSteps_total
    (step : List (String × Entry) → String → Option (List (String × Entry)))
    (Inv : List (String × Entry) → Prop) (keys0 : List String)
    (hsome : ∀ strs key, Inv strs → key ∈ keys0 → (step strs key).isSome)
    (hinv : ∀ strs key strs2, Inv strs → step strs key = some strs2 → Inv strs2) :
    ∀ keys, (∀ key ∈ keys, key ∈ keys0) → ∀ strs, Inv strs →
      (runSteps step keys strs).isSome := by
  intro keys
  induction keys with
  | nil => intro _ strs _; simp [runSteps]
  | cons key ks ih =>
    intro hsub strs hInv
    have h1 : (step strs key).isSome := hsome strs key hInv (hsub key (List.mem_cons_self key ks))
    obtain ⟨strs1, hs⟩ := Option.isSome_iff_exists.mp h1
    simp only [runSteps, hs]
    exact ih (fun x hx => hsub x (List.mem_cons_of_mem key hx)) strs1 (hinv strs key strs1 hInv hs)

/-! Well-formedness of an `en` localization that the repair code reads via
`existing_localizations['en']['stringUnit']['value']`. -/

/-- A localization from which `['stringUnit']['value']` can be read
without a `KeyError`. -/
def WfEnLoc (loc : Localization) : Prop :=
  ∃ su, loc.stringUnit = some su ∧ su.value.isSome

/-- Every `en` localization present in the dict (if any) is readable. -/
def EnReadable (locs : List (String × Localization)) : Prop :=
  ∀ loc, lookupA locs "en" = some loc → WfEnLoc loc

theorem EnReadable_nil : EnReadable [] := by
  intro loc h
  simp [lookupA] at h

theorem EnReadable_insertA {locs : List (String × Localization)} {lang : String}
    {v : Localization} (h : EnReadable locs) (hwf : WfEnLoc v) :
    EnReadable (insertA locs lang v) := by
  intro loc hl
  rw [lookupA_insertA] at hl
  by_cases he : lang = "en"
  · rw [if_pos he, Option.some.injEq] at hl
    exact hl ▸ hwf
  · rw [if_neg he] at hl
    exact h loc hl

theorem mem_missingOf {e : Entry} {l : String} :
    l ∈ missingOf e ↔ l ∈ EXPECTED_LANGUAGES ∧ lookupA (locsOf e) l = none := by
  simp [missingOf, List.mem_filter, Option.isNone_iff_eq_none]

theorem not_mem_missingOf_of_isSome {e : Entry} {l : String}
    (h : (lookupA (locsOf e) l).isSome) : l ∉ missingOf e := by
  intro hmem
  rw [(mem_missingOf.mp hmem).2] at h
  simp at h

/-! Lemmas about folding `insertA` over a list of new bindings. -/

theorem foldl_insertA_lookup_not_mem {α : Type} (news : List (String × α)) :
    ∀ (locs : List (String × α)) (l : String), l ∉ news.map Prod.fst →
      lookupA (news.foldl (fun ls p => insertA ls p.1 p.2) locs) l = lookupA locs l := by
  induction news with
  | nil => intro locs l _; rfl
  | cons p rest ih =>
    intro locs l hl
    simp only [List.map_cons, List.mem_cons, not_or] at hl
    simp only [List.foldl_cons]
    rw [ih _ l hl.2, lookupA_insertA, if_neg (fun hx => hl.1 hx.symm)]

theorem foldl_insertA_isSome_mono {α : Type} (news : List (String × α)) :
    ∀ (locs : List (String × α)) (l : String), (lookupA locs l).isSome →
      (lookupA (news.foldl (fun ls p => insertA ls p.1 p.2) locs) l).isSome := by
  induction news with
  | nil => intro locs l h; exact h
  | cons p rest ih =>
    intro locs l h
    simp only [List.foldl_cons]
    apply ih
    rw [lookupA_insertA]
    by_cases hx : p.1 = l
    · simp [hx]
    · simp [hx, h]

theorem foldl_insertA_lookup_mem {α : Type} (news : List (String × α)) :
    ∀ (locs : List (String × α)) (l : String), l ∈ news.map Prod.fst →
      (lookupA (news.foldl (fun ls p => insertA ls p.1 p.2) locs) l).isSome := by
  induction news with
  | nil => intro locs l h; simp at h
  | cons p rest ih =>
    intro locs l hl
    simp only [List.foldl_cons]
    rcases List.mem_cons.mp hl with h1 | h1
    · apply foldl_insertA_isSome_mono
      rw [lookupA_insertA, if_pos h1.symm]
      rfl
    · exact ih _ l h1

namespace LocalizationFixer

theorem get_translation_value_isSome {key lang : String}
    {existing : List (String × Localization)} (h : EnReadable existing) :
    (get_translation_value key lang existing).isSome := by
  unfold get_translation_value
  cases hmap : (lookupA TRANSLATION_MAPPINGS key).bind (fun m => lookupA m lang) with
  | some v => simp
  | none =>
    by_cases hl : lang = "en"
    · simp [hl]
    · simp only [if_neg hl]
      cases hen : lookupA existing "en" with
      | none => simp
      | some loc =>
        obtain ⟨su, hsu, hval⟩ := h loc hen
        obtain ⟨v, hv⟩ := Option.isSome_iff_exists.mp hval
        simp [hsu, hv]

theorem add_go_lookup_not_mem {key : String} {aliased : Bool} :
    ∀ {langs : List String} {locs locs2 : List (String × Localization)},
      add_go key aliased langs locs = some locs2 →
      ∀ l, l ∉ langs → lookupA locs2 l = lookupA locs l := by
  intro langs
  induction langs with
  | nil =>
    intro locs locs2 h l _
    simp only [add_go, Option.some.injEq] at h
    rw [← h]
  | cons lang rest ih =>
    intro locs locs2 h l hl
    simp only [add_go] at h
    cases hv : get_translation_value key lang (if aliased then locs else []) with
    | none => rw [hv] at h; simp at h
    | some v =>
      rw [hv] at h
      simp only [List.mem_cons, not_or] at hl
      rw [ih h l hl.2, lookupA_insertA, if_neg (fun hx => hl.1 hx.symm)]

theorem add_go_isSome_mono {key : String} {aliased : Bool} :
    ∀ {langs : List String} {locs locs2 : List (String × Localization)},
      add_go key aliased langs locs = some locs2 →
      ∀ l, (lookupA locs l).isSome → (lookupA locs2 l).isSome := by
  intro langs
  induction langs with
  | nil =>
    intro locs locs2 h l hl
    simp only [add_go, Option.some.injEq] at h
    rw [← h]; exact hl
  | cons lang rest ih =>
    intro locs locs2 h l hl
    simp only [add_go] at h
    cases hv : get_translation_value key lang (if aliased then locs else []) with
    | none => rw [hv] at h; simp at h
    | some v =>
      rw [hv] at h
      apply ih h
      rw [lookupA_insertA]
      by_cases hx : lang = l
      · simp [hx]
      · simp [hx, hl]

theorem add_go_lookup_mem {key : String} {aliased : Bool} :
    ∀ {langs : List String} {locs locs2 : List (String × Localization)},
      add_go key aliased langs locs = some locs2 →
      ∀ l, l ∈ langs → (lookupA locs2 l).isSome := by
  intro langs
  induction langs with
  | nil => intro locs locs2 _ l hl; simp at hl
  | cons lang rest ih =>
    intro locs locs2 h l hl
    simp only [add_go] at h
    cases hv : get_translation_value key lang (if aliased then locs else []) with
    | none => rw [hv] at h; simp at h
    | some v =>
      rw [hv] at h
      rcases List.mem_cons.mp hl with h1 | h1
      · apply add_go_isSome_mono h
        rw [lookupA_insertA, if_pos h1.symm]
        rfl
      · exact ih h l h1

theorem add_go_en_readable {key : String} {aliased : Bool} :
    ∀ {langs : List String} {locs locs2 : List (String × Localization)},
      EnReadable locs → add_go key aliased langs locs = some locs2 →
      EnReadable locs2 := by
  intro langs
  induction langs with
  | nil =>
    intro locs locs2 hr h
    simp only [add_go, Option.some.injEq] at h
    rw [← h]; exact hr
  | cons lang rest ih =>
    intro locs locs2 hr h
    simp only [add_go] at h
    cases hv : get_translation_value key lang (if aliased then locs else []) with
    | none => rw [hv] at h; simp at h
    | some v =>
      rw [hv] at h
      exact ih (EnReadable_insertA hr ⟨⟨some "translated", some v⟩, rfl, rfl⟩) h

theorem add_go_isSome {key : String} {aliased : Bool} :
    ∀ {langs : List String} {locs : List (String × Localization)},
      EnReadable locs → (add_go key aliased langs locs).isSome := by
  intro langs
  induction langs with
  | nil => intro locs _; simp [add_go]
  | cons lang rest ih =>
    intro locs hr
    have hv : (get_translation_value key lang (if aliased then locs else [])).isSome := by
      cases haa : aliased
      · simpa using @get_translation_value_isSome key lang [] EnReadable_nil
      · simpa using @get_translation_value_isSome key lang locs hr
    obtain ⟨v, hv2⟩ := Option.isSome_iff_exists.mp hv
    simp only [add_go, hv2]
    exact ih (EnReadable_insertA hr ⟨⟨some "translated", some v⟩, rfl, rfl⟩)

end LocalizationFixer

theorem foldl_insertA_en_readable {news : List (String × Localization)} :
    ∀ {locs : List (String × Localization)}, EnReadable locs →
      (∀ p ∈ news, WfEnLoc p.2) →
      EnReadable (news.foldl (fun ls p => insertA ls p.1 p.2) locs) := by
  induction news with
  | nil => intro locs hr _; exact hr
  | cons p rest ih =>
    intro locs hr hw
    simp only [List.foldl_cons]
    exact ih (EnReadable_insertA hr (hw p (List.mem_cons_self p rest)))
      (fun q hq => hw q (List.mem_cons_of_mem p hq))

namespace LocalizationFixer

theorem fstep_self (a : Analysis) (k : String)
    (hm : (lookupA a.missing_languages k).getD [] = []) :
    ∀ strs, fix_step a strs k = some strs := by
  intro strs
  simp [fix_step, hm]

theorem fstep_char (a : Analysis) (strs : List (String × Entry)) (key : String)
    {strs2 : List (String × Entry)} (h : fix_step a strs key = some strs2) :
    strs2 = strs ∨
      ∃ e aliased locs0 locs2,
        lookupA strs key = some e ∧
        (locs0 = locsOf e ∨ locs0 = []) ∧
        add_go key aliased ((lookupA a.missing_languages key).getD []) locs0 =
          some locs2 ∧
        strs2 = insertA strs key { e with localizations := some locs2 } := by
  simp only [fix_step] at h
  by_cases hm : (lookupA a.missing_languages key).getD [] = []
  · rw [if_pos hm, Option.some.injEq] at h
    exact Or.inl h.symm
  · rw [if_neg hm] at h
    cases he : lookupA strs key with
    | none => simp [he] at h
    | some e =>
      simp only [he] at h
      cases hloc : e.localizations with
      | some locs =>
        simp only [hloc] at h
        obtain ⟨locs2, hadd, hins⟩ := Option.map_eq_some'.mp h
        refine Or.inr ⟨e, true, locs, locs2, rfl, Or.inl ?_, hadd, hins.symm⟩
        simp [locsOf, hloc]
      | none =>
        simp only [hloc] at h
        obtain ⟨locs2, hadd, hins⟩ := Option.map_eq_some'.mp h
        exact Or.inr ⟨e, false, [], locs2, rfl, Or.inr rfl, hadd, hins.symm⟩

theorem fstep_other (a : Analysis) (k : String) :
    ∀ strs key strs2, fix_step a strs key = some strs2 → key ≠ k →
      lookupA strs2 k = lookupA strs k := by
  intro strs key strs2 h hkk
  rcases fstep_char a strs key h with h1 | ⟨e, aliased, locs0, locs2, _, _, _, h4⟩
  · rw [h1]
  · rw [h4, lookupA_insertA, if_neg hkk]

theorem fstep_process (a : Analysis) (k : String) (e0 : Entry)
    (missing : List String) (hm : (lookupA a.missing_languages k).getD [] = missing)
    (hne : missing ≠ []) {strs strs2 : List (String × Entry)}
    (h0 : lookupA strs k = some e0) (h : fix_step a strs k = some strs2) :
    ∃ locs2, lookupA strs2 k = some { e0 with localizations := some locs2 } ∧
      (∀ l, l ∉ missing → lookupA locs2 l = lookupA (locsOf e0) l) ∧
      (∀ l, l ∈ missing → (lookupA locs2 l).isSome) := by
  simp only [fix_step, hm, if_neg hne, h0] at h
  cases hloc : e0.localizations with
  | some locs =>
    simp only [hloc] at h
    have hlocs : locsOf e0 = locs := by simp [locsOf, hloc]
    obtain ⟨locs2, hadd, hins⟩ := Option.map_eq_some'.mp h
    refine ⟨locs2, ?_, ?_, ?_⟩
    · rw [← hins, lookupA_insertA, if_pos rfl]
    · intro l hl
      rw [hlocs]
      exact add_go_lookup_not_mem hadd l hl
    · intro l hl
      exact add_go_lookup_mem hadd l hl
  | none =>
    simp only [hloc] at h
    have hlocs : locsOf e0 = [] := by simp [locsOf, hloc]
    obtain ⟨locs2, hadd, hins⟩ := Option.map_eq_some'.mp h
    refine ⟨locs2, ?_, ?_, ?_⟩
    · rw [← hins, lookupA_insertA, if_pos rfl]
    · intro l hl
      rw [hlocs]
      exact add_go_lookup_not_mem hadd l hl
    · intro l hl
      exact add_go_lookup_mem hadd l hl

end LocalizationFixer

namespace LocalizationAnalyzer

theorem generate_shape {e : Entry} {key : String} {missing : List String}
    {news : List (String × Localization)}
    (h : generate_missing_translations e key missing = some news) :
    ∃ ev, news = missing.map (fun lang =>
      (lang, ⟨some ⟨some "translated",
        some (((lookupA translation_map key).bind
          (fun m => lookupA m lang)).getD ev)⟩⟩)) := by
  unfold generate_missing_translations at h
  obtain ⟨ev, _, hnews⟩ := Option.map_eq_some'.mp h
  exact ⟨ev, hnews.symm⟩

theorem generate_keys {e : Entry} {key : String} {missing : List String}
    {news : List (String × Localization)}
    (h : generate_missing_translations e key missing = some news) :
    news.map Prod.fst = missing := by
  obtain ⟨ev, hnews⟩ := generate_shape h
  rw [hnews]
  simp only [List.map_map]
  exact List.map_id' missing

theorem generate_wf {e : Entry} {key : String} {missing : List String}
    {news : List (String × Localization)}
    (h : generate_missing_translations e key missing = some news) :
    ∀ p ∈ news, WfEnLoc p.2 := by
  obtain ⟨ev, hnews⟩ := generate_shape h
  rw [hnews]
  intro p hp
  obtain ⟨lang, _, hpl⟩ := List.mem_map.mp hp
  rw [← hpl]
  exact ⟨_, rfl, rfl⟩

theorem generate_isSome {e : Entry} {key : String} {missing : List String}
    (h : EnReadable (locsOf e)) :
    (generate_missing_translations e key missing).isSome := by
  unfold generate_missing_translations
  cases hen : lookupA (locsOf e) "en" with
  | none => simp [hen]
  | some loc =>
    obtain ⟨su, hsu, hval⟩ := h loc hen
    obtain ⟨v, hv⟩ := Option.isSome_iff_exists.mp hval
    simp [hen, hsu, hv]

theorem astep_self (a : Analysis) (k : String)
    (hm : (lookupA a.missing_languages k).getD [] = []) :
    ∀ strs, fix_step a strs k = some strs := by
  intro strs
  simp [fix_step, hm]

theorem astep_char (a : Analysis) (strs : List (String × Entry)) (key : String)
    {strs2 : List (String × Entry)} (h : fix_step a strs key = some strs2) :
    strs2 = strs ∨
      ∃ e news locs,
        lookupA strs key = some e ∧
        generate_missing_translations e key
          ((lookupA a.missing_languages key).getD []) = some news ∧
        e.localizations = some locs ∧
        strs2 = insertA strs key
          { e with
            localizations :=
              some (news.foldl (fun ls p => insertA ls p.1 p.2) locs) } := by
  simp only [fix_step] at h
  by_cases hm : (lookupA a.missing_languages key).getD [] = []
  · rw [if_pos hm, Option.some.injEq] at h
    exact Or.inl h.symm
  · rw [if_neg hm] at h
    cases he : lookupA strs key with
    | none => simp [he] at h
    | some e =>
      simp only [he] at h
      cases hgen : generate_missing_translations e key
          ((lookupA a.missing_languages key).getD []) with
      | none => simp [hgen] at h
      | some news =>
        simp only [hgen] at h
        cases hloc : e.localizations with
        | none => simp [hloc] at h
        | some locs =>
          simp only [hloc, Option.some.injEq] at h
          exact Or.inr ⟨e, news, locs, rfl, hgen, hloc, h.symm⟩

theorem astep_other (a : Analysis) (k : String) :
    ∀ strs key strs2, fix_step a strs key = some strs2 → key ≠ k →
      lookupA strs2 k = lookupA strs k := by
  intro strs key strs2 h hkk
  rcases astep_char a strs key h with h1 | ⟨e, news, locs, _, _, _, h4⟩
  · rw [h1]
  · rw [h4, lookupA_insertA, if_neg hkk]

theorem astep_process (a : Analysis) (k : String) (e0 : Entry)
    (missing : List String) (hm : (lookupA a.missing_languages k).getD [] = missing)
    (hne : missing ≠ []) {strs strs2 : List (String × Entry)}
    (h0 : lookupA strs k = some e0) (h : fix_step a strs k = some strs2) :
    ∃ locs2, lookupA strs2 k = some { e0 with localizations := some locs2 } ∧
      (∀ l, l ∉ missing → lookupA locs2 l = lookupA (locsOf e0) l) ∧
      (∀ l, l ∈ missing → (lookupA locs2 l).isSome) := by
  simp only [fix_step, hm, if_neg hne, h0] at h
  cases hgen : generate_missing_translations e0 k missing with
  | none => simp [hgen] at h
  | some news =>
    simp only [hgen] at h
    cases hloc : e0.localizations with
    | none => simp [hloc] at h
    | some locs =>
      simp only [hloc, Option.some.injEq] at h
      have hlocs : locsOf e0 = locs := by simp [locsOf, hloc]
      have hkeys : news.map Prod.fst = missing := generate_keys hgen
      refine ⟨news.foldl (fun ls p => insertA ls p.1 p.2) locs, ?_, ?_, ?_⟩
      · rw [← h, lookupA_insertA, if_pos rfl]
      · intro l hl
        rw [hlocs]
        exact foldl_insertA_lookup_not_mem news locs l (by rw [hkeys]; exact hl)
      · intro l hl
        exact foldl_insertA_lookup_mem news locs l (by rw [hkeys]; exact hl)

end LocalizationAnalyzer

namespace FixLocalizations

theorem fix_loc_eq (osu : Option StringUnit) :
    fix_loc ⟨osu⟩ = (match osu with
      | none => (⟨none⟩ : Localization)
      | some su => ⟨some ⟨some "translated", su.value⟩⟩) := by
  cases osu with
  | none => rfl
  | some su =>
    obtain ⟨st, v⟩ := su
    simp only [fix_loc]
    by_cases h1 : st = (none : Option String)
    · subst h1
      simp
    · rw [if_neg h1]
      obtain ⟨sv, rfl⟩ := Option.ne_none_iff_exists'.mp h1
      by_cases h2 : sv = "translated"
      · subst h2
        simp
      · rw [if_pos (by simpa using h2)]

theorem fix_loc_stringUnit (loc : Localization) :
    (fix_loc loc).stringUnit = loc.stringUnit.map (fun su => ⟨some "translated", su.value⟩) := by
  obtain ⟨osu⟩ := loc
  rw [fix_loc_eq]
  cases osu <;> rfl

theorem fix_loc_idem (loc : Localization) : fix_loc (fix_loc loc) = fix_loc loc := by
  obtain ⟨osu⟩ := loc
  rw [fix_loc_eq]
  cases osu with
  | none => rw [fix_loc_eq]
  | some su => rw [fix_loc_eq]

theorem map_fix_loc_idem (xs : List (String × Localization)) :
    (xs.map (fun p => (p.1, fix_loc p.2))).map (fun p => (p.1, fix_loc p.2)) =
      xs.map (fun p => (p.1, fix_loc p.2)) := by
  induction xs with
  | nil => rfl
  | cons p rest ih => simp [ih, fix_loc_idem]

theorem fix_entry_excluded {k : String} {e : Entry}
    (h : e.shouldTranslate = some false) : fix_entry k e = e := by
  simp [fix_entry, h]

theorem fix_entry_noloc {k : String} {e : Entry} (h : e.localizations = none) :
    fix_entry k e = e := by
  by_cases hst : e.shouldTranslate = some false <;> simp [fix_entry, hst, h]

theorem fix_entry_main {k : String} {e : Entry} {locs : List (String × Localization)}
    (hst : ¬e.shouldTranslate = some false) (hloc : e.localizations = some locs) :
    fix_entry k e =
      { e with
        localizations :=
          some ((if (lookupA locs "en").isNone ∧ 0 < locs.length then
              insertA locs "en" ⟨some ⟨some "translated", some k⟩⟩
            else locs).map (fun p => (p.1, fix_loc p.2))) } := by
  simp [fix_entry, hst, hloc]

theorem fix_entry_shouldTranslate (k : String) (e : Entry) :
    (fix_entry k e).shouldTranslate = e.shouldTranslate := by
  by_cases hst : e.shouldTranslate = some false
  · rw [fix_entry_excluded hst]
  · cases hloc : e.localizations with
    | none => rw [fix_entry_noloc hloc]
    | some locs => rw [fix_entry_main hst hloc]

theorem fix_entry_idem (k : String) (e : Entry) :
    fix_entry k (fix_entry k e) = fix_entry k e := by
  by_cases hst : e.shouldTranslate = some false
  · rw [fix_entry_excluded hst, fix_entry_excluded hst]
  · cases hloc : e.localizations with
    | none => rw [fix_entry_noloc hloc, fix_entry_noloc hloc]
    | some locs =>
      rw [fix_entry_main hst hloc]
      set locs1 := (if (lookupA locs "en").isNone ∧ 0 < locs.length then
          insertA locs "en" ⟨some ⟨some "translated", some k⟩⟩
        else locs) with hlocs1
      have hst2 : ¬({ e with localizations := some (locs1.map (fun p => (p.1, fix_loc p.2))) } : Entry).shouldTranslate = some false := hst
      rw [fix_entry_main hst2 rfl]
      have hcond : ¬((lookupA (locs1.map (fun p => (p.1, fix_loc p.2))) "en").isNone ∧
          0 < (locs1.map (fun p => (p.1, fix_loc p.2))).length) := by
        rw [lookupA_map_entries (fun _ loc => fix_loc loc) locs1 "en"]
        by_cases hc : (lookupA locs "en").isNone ∧ 0 < locs.length
        · rw [hlocs1, if_pos hc]
          intro hcontra
          rw [lookupA_insertA, if_pos rfl] at hcontra
          simp at hcontra
        · rw [hlocs1, if_neg hc]
          push_neg at hc
          intro hcontra
          by_cases hen : (lookupA locs "en").isNone
          · have hlen := hc hen
            have : locs = [] := by
              cases locs with
              | nil => rfl
              | cons q t => simp at hlen
            subst this
            simp at hcontra
          · rw [Option.isNone_iff_eq_none] at hen
            obtain ⟨loc, hl⟩ := Option.ne_none_iff_exists'.mp hen
            rw [hl] at hcontra
            simp at hcontra
      rw [if_neg hcond, map_fix_loc_idem]

theorem fix_localizations_strings (d : Catalog) (k : String) :
    lookupA (fix_localizations d).strings k = (lookupA d.strings k).map (fix_entry k) := by
  exact lookupA_map_entries fix_entry d.strings k

theorem map_fix_entry_idem (xs : List (String × Entry)) :
    (xs.map (fun p => (p.1, fix_entry p.1 p.2))).map (fun p => (p.1, fix_entry p.1 p.2)) =
      xs.map (fun p => (p.1, fix_entry p.1 p.2)) := by
  induction xs with
  | nil => rfl
  | cons p rest ih => simp [ih, fix_entry_idem]

theorem fix_entry_state {k : String} {e : Entry} {locs : List (String × Localization)}
    {l : String} {loc : Localization}
    (hst : ¬e.shouldTranslate = some false) (hloc : e.localizations = some locs)
    (hl : lookupA locs l = some loc) (hsu : loc.stringUnit.isSome) :
    ∃ locs2 loc2, (fix_entry k e).localizations = some locs2 ∧
      lookupA locs2 l = some loc2 ∧ stateOf loc2 = some "translated" := by
  rw [fix_entry_main hst hloc]
  set locs1 := (if (lookupA locs "en").isNone ∧ 0 < locs.length then
      insertA locs "en" ⟨some ⟨some "translated", some k⟩⟩
    else locs) with hlocs1
  have hl1 : lookupA locs1 l = some loc := by
    rw [hlocs1]
    by_cases hc : (lookupA locs "en").isNone ∧ 0 < locs.length
    · rw [if_pos hc, lookupA_insertA]
      have hne : "en" ≠ l := by
        intro hx
        rw [← hx] at hl
        rw [hl] at hc
        simp at hc
      rw [if_neg hne]
      exact hl
    · rw [if_neg hc]; exact hl
  refine ⟨locs1.map (fun p => (p.1, fix_loc p.2)), fix_loc loc, rfl, ?_, ?_⟩
  · rw [lookupA_map_entries (fun _ loc => fix_loc loc) locs1 l, hl1]
    rfl
  · obtain ⟨su, hsu2⟩ := Option.isSome_iff_exists.mp hsu
    unfold stateOf
    rw [fix_loc_stringUnit, hsu2]
    rfl

end FixLocalizations

/-! Classification facts used to relate the scans to spec-level counts. -/

theorem analyzer_classify_excluded_iff (e : Entry) :
    LocalizationAnalyzer.classify e = .excluded ↔ e.shouldTranslate = some false := by
  constructor
  · intro hcl
    by_contra h
    simp only [LocalizationAnalyzer.classify, if_neg h] at hcl
    by_cases h2 : missingOf e ≠ []
    · rw [if_pos h2] at hcl
      exact EntryClass.noConfusion hcl
    · rw [if_neg h2] at hcl
      by_cases h3 : all_translated (locsOf e) = true
      · rw [if_pos h3] at hcl
        exact EntryClass.noConfusion hcl
      · rw [if_neg h3] at hcl
        exact EntryClass.noConfusion hcl
  · intro h
    simp only [LocalizationAnalyzer.classify, if_pos h]

theorem fixer_classify_excluded_iff (e : Entry) :
    LocalizationFixer.classify e = .excluded ↔ e.shouldTranslate = some false := by
  constructor
  · intro hcl
    by_contra h
    simp only [LocalizationFixer.classify, if_neg h] at hcl
    by_cases h2 : missingOf e ≠ []
    · rw [if_pos h2] at hcl
      exact EntryClass.noConfusion hcl
    · rw [if_neg h2] at hcl
      exact EntryClass.noConfusion hcl
  · intro h
    simp only [LocalizationFixer.classify, if_pos h]

/-- Number of entries counted into `should_not_translate`. -/
def excludedCount (d : Catalog) : Nat :=
  d.strings.countP (fun p => p.2.shouldTranslate = some false)

theorem scanWith_snt_excluded (c : Entry → EntryClass)
    (hc : ∀ e, c e = .excluded ↔ e.shouldTranslate = some false)
    (strs : List (String × Entry)) :
    (scanWith c strs).should_not_translate =
      strs.countP (fun p => p.2.shouldTranslate = some false) := by
  rw [scanWith_snt]
  apply List.countP_congr
  intro p _
  simp [hc p.2]

theorem status_scan_total (strs : List (String × Entry)) :
    (LocalizationStatus.scan strs).total_keys = strs.length := by
  induction strs with
  | nil => rfl
  | cons p rest ih =>
    obtain ⟨k, e⟩ := p
    by_cases h : e.shouldTranslate = some false
    · simp [LocalizationStatus.scan, h, ih]
    · by_cases h2 : LocalizationStatus.entry_complete e <;>
        simp [LocalizationStatus.scan, h, h2, ih]

theorem status_scan_snt (strs : List (String × Entry)) :
    (LocalizationStatus.scan strs).should_not_translate =
      strs.countP (fun p => p.2.shouldTranslate = some false) := by
  induction strs with
  | nil => rfl
  | cons p rest ih =>
    obtain ⟨k, e⟩ := p
    by_cases h : e.shouldTranslate = some false
    · simp [LocalizationStatus.scan, h, ih, List.countP_cons]
    · by_cases h2 : LocalizationStatus.entry_complete e <;>
        simp [LocalizationStatus.scan, h, h2, ih, List.countP_cons]

theorem entry_complete_iff (e : Entry) :
    LocalizationStatus.entry_complete e = true ↔ missingOf e = [] := by
  simp only [LocalizationStatus.entry_complete, missingOf, List.all_eq_true,
    List.filter_eq_nil_iff]
  constructor
  · intro h l hl
    have h2 := h l hl
    rw [Option.isSome_iff_ne_none] at h2
    simp only [Option.isNone_iff_eq_none]
    exact h2
  · intro h l hl
    have h2 := h l hl
    simp only [Option.isNone_iff_eq_none] at h2
    rw [Option.isSome_iff_ne_none]
    exact h2

/-! Concrete documents used as counterexamples and witnesses. -/

/-- A localization `{"stringUnit": {"state": "translated", "value": v}}`. -/
def locT (v : String) : Localization := ⟨some ⟨some "translated", some v⟩⟩

/-- An entry covering all ten languages whose `ar` localization has state
`new` instead of `translated`. -/
def eC2 : Entry :=
  ⟨none, some [("ar", ⟨some ⟨some "new", some "x"⟩⟩), ("de", locT "x"),
    ("es", locT "x"), ("fr", locT "x"), ("hi", locT "x"), ("ja", locT "x"),
    ("ko", locT "x"), ("pt", locT "x"), ("zh-Hans", locT "x"), ("en", locT "x")]⟩

def dC2 : Catalog := ⟨[("k", eC2)]⟩

/-- C7: the Normalizer pass of `fix_localizations.py` is idempotent:
applying it twice yields the same document as applying it once. -/
theorem C7_normalizer_idempotent (d : Catalog) :
    FixLocalizations.fix_localizations (FixLocalizations.fix_localizations d) =
      FixLocalizations.fix_localizations d := by
  unfold FixLocalizations.fix_localizations
  exact congrArg Catalog.mk (FixLocalizations.map_fix_entry_idem d.strings)

/-- An entry whose `fr` localization has no `stringUnit` object at all. -/
def dC8 : Catalog := ⟨[("k", ⟨none, some [("fr", ⟨none⟩)]⟩)]⟩

/-- C8 fails as stated: after the Normalizer pass on `dC8`, the `fr`
localization that existed in the input still has no `state` at all
(`stateOf` is `none`, not `translated`), because the coercion loop of
`fix_localizations.py` only touches localizations that have a
`stringUnit` object. -/
theorem C8_counterexample :
    (lookupA (FixLocalizations.fix_localizations dC8).strings "k").map
        (fun e2 => (e2.localizations.getD []).map (fun p => (p.1, stateOf p.2))) =
      some [("fr", none), ("en", some "translated")] := by decide

/-- C8 (amended): after the Normalizer pass, every Localization of a
translatable entry that existed in the input *and has a `stringUnit`
object* ends with `state = translated`; localizations without a
`stringUnit` are left unchanged (and in particular keep no state). -/
theorem C8_state_coercion (d : Catalog) (k : String) (e : Entry)
    (locs : List (String × Localization)) (l : String) (loc : Localization)
    (he : lookupA d.strings k = some e) (hst : ¬e.shouldTranslate = some false)
    (hloc : e.localizations = some locs) (hl : lookupA locs l = some loc)
    (hsu : loc.stringUnit.isSome) :
    ∃ e2 locs2 loc2,
      lookupA (FixLocalizations.fix_localizations d).strings k = some e2 ∧
      e2.localizations = some locs2 ∧ lookupA locs2 l = some loc2 ∧
      stateOf loc2 = some "translated" := by
  rw [FixLocalizations.fix_localizations_strings, he]
  obtain ⟨locs2, loc2, h1, h2, h3⟩ := FixLocalizations.fix_entry_state hst hloc hl hsu
  exact ⟨FixLocalizations.fix_entry k e, locs2, loc2, rfl, h1, h2, h3⟩

/-- Concrete instance of `C8_state_coercion`. -/
theorem C8_state_coercion_witness :
    ∃ e2 locs2 loc2,
      lookupA (FixLocalizations.fix_localizations dC2).strings "k" = some e2 ∧
      e2.localizations = some locs2 ∧ lookupA locs2 "ar" = some loc2 ∧
      stateOf loc2 = some "translated" :=
  C8_state_coercion dC2 "k" eC2 (eC2.localizations.getD []) "ar"
    ⟨some ⟨some "new", some "x"⟩⟩ (by decide) (by decide) (by decide)
    (by decide) (by decide)

/-- C6: every analysis implementation computes the completion percentage
as `complete / (total - excluded) * 100`, yielding `0` when the
denominator is zero, in particular on an empty `strings` collection. -/
theorem C6_completion_percentage (d : Catalog) :
    (completion_percentage (LocalizationAnalyzer.analyze_completeness d) =
      if d.strings.length - excludedCount d = 0 then 0
      else ((LocalizationAnalyzer.analyze_completeness d).complete_keys : ℚ) /
        ((d.strings.length - excludedCount d : Nat) : ℚ) * 100) ∧
    (LocalizationStatus.status_percentage (LocalizationStatus.check_localization_status d) =
      if d.strings.length - excludedCount d = 0 then 0
      else ((LocalizationStatus.check_localization_status d).complete_keys : ℚ) /
        ((d.strings.length - excludedCount d : Nat) : ℚ) * 100) ∧
    (d.strings = [] →
      completion_percentage (LocalizationAnalyzer.analyze_completeness d) = 0 ∧
      LocalizationStatus.status_percentage
        (LocalizationStatus.check_localization_status d) = 0) := by
  have ht : (LocalizationAnalyzer.analyze_completeness d).total_keys = d.strings.length :=
    scanWith_total _ _
  have hs : (LocalizationAnalyzer.analyze_completeness d).should_not_translate =
      excludedCount d :=
    scanWith_snt_excluded _ analyzer_classify_excluded_iff _
  have ht2 : (LocalizationStatus.check_localization_status d).total_keys =
      d.strings.length := status_scan_total _
  have hs2 : (LocalizationStatus.check_localization_status d).should_not_translate =
      excludedCount d := status_scan_snt _
  refine ⟨?_, ?_, ?_⟩
  · rw [completion_percentage, ht, hs]
    rcases Nat.eq_zero_or_pos (d.strings.length - excludedCount d) with hz | hz
    · rw [if_neg (by omega), if_pos hz]
    · rw [if_pos hz, if_neg (by omega)]
  · rw [LocalizationStatus.status_percentage, ht2, hs2]
    rcases Nat.eq_zero_or_pos (d.strings.length - excludedCount d) with hz | hz
    · rw [if_neg (by omega), if_pos hz]
    · rw [if_pos hz, if_neg (by omega)]
  · intro hnil
    constructor
    · rw [completion_percentage, ht, hs, hnil]
      simp [excludedCount, hnil]
    · rw [LocalizationStatus.status_percentage, ht2, hs2, hnil]
      simp [excludedCount, hnil]

/-- Concrete instance of the zero-denominator branch of
`C6_completion_percentage`. -/
theorem C6_completion_percentage_witness :
    completion_percentage (LocalizationAnalyzer.analyze_completeness ⟨[]⟩) = 0 ∧
    LocalizationStatus.status_percentage
      (LocalizationStatus.check_localization_status ⟨[]⟩) = 0 :=
  (C6_completion_percentage ⟨[]⟩).2.2 rfl

/-- C2 fails as stated: on `dC2` (all ten languages present, the `ar`
state is `new`), only `localization_analyzer.py` marks the entry
incomplete; `localization_fixer.py` and `localization_status.py` count it
complete, so the rule does not hold in every analysis implementation. -/
theorem C2_counterexample :
    "k" ∈ (LocalizationAnalyzer.analyze_completeness dC2).incomplete_keys ∧
    "k" ∉ (LocalizationFixer.analyze_completeness dC2).incomplete_keys ∧
    (LocalizationFixer.analyze_completeness dC2).complete_keys = 1 ∧
    (LocalizationStatus.check_localization_status dC2).complete_keys = 1 := by
  decide

/-- C2 (amended): for a translatable entry with no missing target
language, the analyzer marks it incomplete exactly when some existing
localization state differs from `translated`; the fixer's analysis and
the status checker instead count such an entry complete regardless of
states. -/
theorem C2_state_rule (d : Catalog) (k : String) (e : Entry)
    (hnd : (d.strings.map Prod.fst).Nodup)
    (he : lookupA d.strings k = some e)
    (hst : ¬e.shouldTranslate = some false) (hm : missingOf e = []) :
    (k ∈ (LocalizationAnalyzer.analyze_completeness d).incomplete_keys ↔
      ¬all_translated (locsOf e)) ∧
    k ∉ (LocalizationFixer.analyze_completeness d).incomplete_keys ∧
    LocalizationStatus.entry_complete e = true := by
  refine ⟨⟨?_, ?_⟩, ?_, (entry_complete_iff e).mpr hm⟩
  · intro hmem hat
    have hcl : LocalizationAnalyzer.classify e = .complete := by
      simp [LocalizationAnalyzer.classify, hst, hm, hat]
    exact not_mem_incomplete _ hnd he (by rw [hcl]; rfl) hmem
  · intro hat
    have hcl : LocalizationAnalyzer.classify e = .incompleteState := by
      simp [LocalizationAnalyzer.classify, hst, hm, hat]
    exact mem_incomplete_of_mem _ (mem_of_lookupA_eq_some he) (by rw [hcl]; rfl)
  · have hcl : LocalizationFixer.classify e = .complete := by
      simp [LocalizationFixer.classify, hst, hm]
    exact not_mem_incomplete _ hnd he (by rw [hcl]; rfl)

/-- Concrete instance of `C2_state_rule` at `dC2`. -/
theorem C2_state_rule_witness :
    ("k" ∈ (LocalizationAnalyzer.analyze_completeness dC2).incomplete_keys ↔
      ¬all_translated (locsOf eC2)) ∧
    "k" ∉ (LocalizationFixer.analyze_completeness dC2).incomplete_keys ∧
    LocalizationStatus.entry_complete eC2 = true :=
  C2_state_rule dC2 "k" eC2 (by decide) (by decide) (by decide) (by decide)

theorem translatable_count (d : Catalog) :
    d.strings.length - excludedCount d =
      d.strings.countP (fun p => ¬(p.2.shouldTranslate = some false)) := by
  have h := List.length_eq_countP_add_countP
    (fun p : String × Entry => decide (p.2.shouldTranslate = some false)) d.strings
  have h2 : d.strings.countP
        (fun p => decide ¬(decide (p.2.shouldTranslate = some false) = true)) =
      d.strings.countP (fun p => ¬(p.2.shouldTranslate = some false)) := by
    apply List.countP_congr
    intro x _
    simp
  rw [h2] at h
  unfold excludedCount
  omega

/-- An excluded entry together with its one-entry catalog. -/
def eC9 : Entry := ⟨some false, none⟩

def dC9 : Catalog := ⟨[("k", eC9)]⟩

/-- C9: an entry with `shouldTranslate` explicitly `false` never appears
in `incomplete_keys` of either analysis, is left untouched (bound to the
identical Entry value) by the Normalizer and by both repair variants, and
the completion-percentage denominator counts exactly the entries not
marked `shouldTranslate == false`. -/
theorem C9_excluded_frame (d : Catalog) (k : String) (e : Entry)
    (hnd : (d.strings.map Prod.fst).Nodup)
    (he : lookupA d.strings k = some e) (hex : e.shouldTranslate = some false) :
    k ∉ (LocalizationAnalyzer.analyze_completeness d).incomplete_keys ∧
    k ∉ (LocalizationFixer.analyze_completeness d).incomplete_keys ∧
    lookupA (FixLocalizations.fix_localizations d).strings k = some e ∧
    (∀ d2, LocalizationFixer.fix_localizations d = some d2 →
      lookupA d2.strings k = some e) ∧
    (∀ d2, LocalizationAnalyzer.fix_localizations d = some d2 →
      lookupA d2.strings k = some e) ∧
    (LocalizationFixer.analyze_completeness d).total_keys -
        (LocalizationFixer.analyze_completeness d).should_not_translate =
      d.strings.countP (fun p => ¬(p.2.shouldTranslate = some false)) := by
  have hclA : LocalizationAnalyzer.classify e = .excluded :=
    (analyzer_classify_excluded_iff e).mpr hex
  have hclF : LocalizationFixer.classify e = .excluded :=
    (fixer_classify_excluded_iff e).mpr hex
  have hnotA : k ∉ (LocalizationAnalyzer.analyze_completeness d).incomplete_keys :=
    not_mem_incomplete _ hnd he (by rw [hclA]; rfl)
  have hnotF : k ∉ (LocalizationFixer.analyze_completeness d).incomplete_keys :=
    not_mem_incomplete _ hnd he (by rw [hclF]; rfl)
  refine ⟨hnotA, hnotF, ?_, ?_, ?_, ?_⟩
  · rw [FixLocalizations.fix_localizations_strings, he]
    simp [FixLocalizations.fix_entry_excluded hex]
  · intro d2 hfix
    unfold LocalizationFixer.fix_localizations at hfix
    obtain ⟨strs2, hrun, hmk⟩ := Option.map_eq_some'.mp hfix
    rw [← hmk]
    have := runSteps_preserve_not_mem (LocalizationFixer.fix_step
        (LocalizationFixer.analyze_completeness d)) k
      (LocalizationFixer.fstep_other _ k)
      (LocalizationFixer.analyze_completeness d).incomplete_keys d.strings strs2
      hnotF hrun
    rw [this]
    exact he
  · intro d2 hfix
    unfold LocalizationAnalyzer.fix_localizations at hfix
    obtain ⟨strs2, hrun, hmk⟩ := Option.map_eq_some'.mp hfix
    rw [← hmk]
    have := runSteps_preserve_not_mem (LocalizationAnalyzer.fix_step
        (LocalizationAnalyzer.analyze_completeness d)) k
      (LocalizationAnalyzer.astep_other _ k)
      (LocalizationAnalyzer.analyze_completeness d).incomplete_keys d.strings strs2
      hnotA hrun
    rw [this]
    exact he
  · have h1 : (LocalizationFixer.analyze_completeness d).total_keys =
        d.strings.length := scanWith_total _ _
    have h2 : (LocalizationFixer.analyze_completeness d).should_not_translate =
        excludedCount d := scanWith_snt_excluded _ fixer_classify_excluded_iff _
    rw [h1, h2]
    exact translatable_count d

/-- Concrete instance of `C9_excluded_frame`: on `dC9` both repairs
return the catalog unchanged and the excluded entry is untouched. -/
theorem C9_excluded_frame_witness :
    "k" ∉ (LocalizationAnalyzer.analyze_completeness dC9).incomplete_keys ∧
    "k" ∉ (LocalizationFixer.analyze_completeness dC9).incomplete_keys ∧
    lookupA (FixLocalizations.fix_localizations dC9).strings "k" = some eC9 ∧
    lookupA dC9.strings "k" = some eC9 ∧
    (LocalizationFixer.analyze_completeness dC9).total_keys -
        (LocalizationFixer.analyze_completeness dC9).should_not_translate =
      dC9.strings.countP (fun p => ¬(p.2.shouldTranslate = some false)) := by
  have h := C9_excluded_frame dC9 "k" eC9 (by decide) (by decide) (by decide)
  exact ⟨h.1, h.2.1, h.2.2.1, h.2.2.2.1 dC9 (by decide), h.2.2.2.2.2⟩

/-- C10: in the interactive variant (`localization_analyzer.py`), an
entry reported incomplete only because of a non-`translated` state (its
missing-language set being empty) is skipped by `fix_localizations`: its
Entry value is unchanged in the repaired catalog, and the same analysis
still reports it incomplete afterwards. -/
theorem C10_state_only_skipped (d : Catalog) (k : String) (e : Entry) (d2 : Catalog)
    (hnd : (d.strings.map Prod.fst).Nodup)
    (he : lookupA d.strings k = some e)
    (hst : ¬e.shouldTranslate = some false) (hm : missingOf e = [])
    (hat : ¬all_translated (locsOf e) = true)
    (hfix : LocalizationAnalyzer.fix_localizations d = some d2) :
    lookupA d2.strings k = some e ∧
    k ∈ (LocalizationAnalyzer.analyze_completeness d).incomplete_keys ∧
    k ∈ (LocalizationAnalyzer.analyze_completeness d2).incomplete_keys := by
  have hcl : LocalizationAnalyzer.classify e = .incompleteState := by
    simp [LocalizationAnalyzer.classify, hst, hm, hat]
  have hmiss : lookupA
      (LocalizationAnalyzer.analyze_completeness d).missing_languages k = none := by
    have := lookupA_scan_missing LocalizationAnalyzer.classify hnd he
    rw [hcl] at this
    exact this
  have hpres : lookupA d2.strings k = some e := by
    unfold LocalizationAnalyzer.fix_localizations at hfix
    obtain ⟨strs2, hrun, hmk⟩ := Option.map_eq_some'.mp hfix
    rw [← hmk]
    have := runSteps_preserve_self (LocalizationAnalyzer.fix_step
        (LocalizationAnalyzer.analyze_completeness d)) k
      (LocalizationAnalyzer.astep_other _ k)
      (LocalizationAnalyzer.astep_self _ k (by rw [hmiss]; rfl))
      (LocalizationAnalyzer.analyze_completeness d).incomplete_keys d.strings strs2
      hrun
    rw [this]
    exact he
  refine ⟨hpres, ?_, ?_⟩
  · exact mem_incomplete_of_mem _ (mem_of_lookupA_eq_some he) (by rw [hcl]; rfl)
  · exact mem_incomplete_of_mem _ (mem_of_lookupA_eq_some hpres) (by rw [hcl]; rfl)

/-- Concrete instance of `C10_state_only_skipped` at `dC2`, on which the
interactive repair is the identity. -/
theorem C10_state_only_skipped_witness :
    lookupA dC2.strings "k" = some eC2 ∧
    "k" ∈ (LocalizationAnalyzer.analyze_completeness dC2).incomplete_keys ∧
    "k" ∈ (LocalizationAnalyzer.analyze_completeness dC2).incomplete_keys := by
  have h := C10_state_only_skipped dC2 "k" eC2 dC2 (by decide) (by decide)
    (by decide) (by decide) (by decide) (by decide)
  exact h

theorem missingOf_eq_nil_iff {e : Entry} :
    missingOf e = [] ↔ ∀ l ∈ EXPECTED_LANGUAGES, (lookupA (locsOf e) l).isSome := by
  rw [← entry_complete_iff]
  simp only [LocalizationStatus.entry_complete, List.all_eq_true]

theorem incomplete_keys_nodup (c : Entry → EntryClass) {strs : List (String × Entry)}
    (hnd : (strs.map Prod.fst).Nodup) :
    (scanWith c strs).incomplete_keys.Nodup := by
  rw [scanWith_incomplete]
  exact List.Nodup.sublist ((List.filter_sublist _).map Prod.fst) hnd

theorem isIncomplete_of_mem (c : Entry → EntryClass) {strs : List (String × Entry)}
    {k : String} {e : Entry} (hnd : (strs.map Prod.fst).Nodup)
    (he : lookupA strs k = some e)
    (hmem : k ∈ (scanWith c strs).incomplete_keys) :
    (c e).isIncomplete = true := by
  by_contra h
  exact not_mem_incomplete c hnd he ((Bool.not_eq_true _).mp h) hmem

theorem fixer_classify_missing {e : Entry} {m : List String}
    (h : LocalizationFixer.classify e = .incompleteMissing m) :
    m = missingOf e ∧ missingOf e ≠ [] ∧ ¬e.shouldTranslate = some false := by
  by_cases h1 : e.shouldTranslate = some false
  · simp [LocalizationFixer.classify, h1] at h
  · by_cases h2 : missingOf e ≠ []
    · simp only [LocalizationFixer.classify, if_neg h1, if_pos h2,
        EntryClass.incompleteMissing.injEq] at h
      exact ⟨h.symm, h2, h1⟩
    · simp [LocalizationFixer.classify, h1, h2] at h

theorem fixer_classify_ne_state (e : Entry) :
    LocalizationFixer.classify e ≠ .incompleteState := by
  intro h
  by_cases h1 : e.shouldTranslate = some false
  · simp [LocalizationFixer.classify, h1] at h
  · by_cases h2 : missingOf e ≠ [] <;> simp [LocalizationFixer.classify, h1, h2] at h

theorem analyzer_classify_missing {e : Entry} {m : List String}
    (h : LocalizationAnalyzer.classify e = .incompleteMissing m) :
    m = missingOf e ∧ missingOf e ≠ [] ∧ ¬e.shouldTranslate = some false := by
  by_cases h1 : e.shouldTranslate = some false
  · simp [LocalizationAnalyzer.classify, h1] at h
  · by_cases h2 : missingOf e ≠ []
    · simp only [LocalizationAnalyzer.classify, if_neg h1, if_pos h2,
        EntryClass.incompleteMissing.injEq] at h
      exact ⟨h.symm, h2, h1⟩
    · by_cases h3 : all_translated (locsOf e) = true <;>
        simp [LocalizationAnalyzer.classify, h1, h2, h3] at h

theorem analyzer_classify_state {e : Entry}
    (h : LocalizationAnalyzer.classify e = .incompleteState) :
    missingOf e = [] ∧ ¬e.shouldTranslate = some false := by
  by_cases h1 : e.shouldTranslate = some false
  · simp [LocalizationAnalyzer.classify, h1] at h
  · by_cases h2 : missingOf e ≠ []
    · simp [LocalizationAnalyzer.classify, h1, h2] at h
    · rw [not_not] at h2
      exact ⟨h2, h1⟩

/-- What the fixer's repair does to the entry bound at `k`: existing
localizations keep their bindings, and if the entry was translatable with
missing languages, all target languages are present afterwards. -/
theorem fixer_after_fix (d : Catalog) {d2 : Catalog} (k : String) (e : Entry)
    (hnd : (d.strings.map Prod.fst).Nodup) (he : lookupA d.strings k = some e)
    (hfix : LocalizationFixer.fix_localizations d = some d2) :
    ∃ e2, lookupA d2.strings k = some e2 ∧
      (∀ l, (lookupA (locsOf e) l).isSome →
        lookupA (locsOf e2) l = lookupA (locsOf e) l) ∧
      (missingOf e ≠ [] → ¬e.shouldTranslate = some false →
        ∀ l ∈ EXPECTED_LANGUAGES, (lookupA (locsOf e2) l).isSome) := by
  unfold LocalizationFixer.fix_localizations at hfix
  obtain ⟨strs2, hrun, hmk⟩ := Option.map_eq_some'.mp hfix
  have hd2 : d2.strings = strs2 := by rw [← hmk]
  have hmiss : lookupA
      (LocalizationFixer.analyze_completeness d).missing_languages k =
        match LocalizationFixer.classify e with
        | .incompleteMissing m => some m
        | _ => none :=
    lookupA_scan_missing LocalizationFixer.classify hnd he
  by_cases hpr : missingOf e ≠ [] ∧ ¬e.shouldTranslate = some false
  · have hcl : LocalizationFixer.classify e = .incompleteMissing (missingOf e) := by
      simp [LocalizationFixer.classify, hpr.1, hpr.2]
    rw [hcl] at hmiss
    have hknd : (LocalizationFixer.analyze_completeness d).incomplete_keys.Nodup :=
      incomplete_keys_nodup _ hnd
    have hkmem : k ∈ (LocalizationFixer.analyze_completeness d).incomplete_keys :=
      mem_incomplete_of_mem _ (mem_of_lookupA_eq_some he) (by rw [hcl]; rfl)
    have hp := runSteps_process
      (LocalizationFixer.fix_step (LocalizationFixer.analyze_completeness d)) k
      (fun e2 => (∀ l, (lookupA (locsOf e) l).isSome →
          lookupA (locsOf e2) l = lookupA (locsOf e) l) ∧
        (∀ l ∈ EXPECTED_LANGUAGES, (lookupA (locsOf e2) l).isSome)) e
      (LocalizationFixer.fstep_other _ k)
      (fun strs strs2x h0 hstep => by
        obtain ⟨locs2, h1, h2, h3⟩ := LocalizationFixer.fstep_process _ k e
          (missingOf e) (by rw [hmiss]; rfl) hpr.1 h0 hstep
        refine ⟨{ e with localizations := some locs2 }, h1, ?_, ?_⟩
        · intro l hl
          have hnm : l ∉ missingOf e := not_mem_missingOf_of_isSome hl
          have : locsOf { e with localizations := some locs2 } = locs2 := by
            simp [locsOf]
          rw [this]
          exact h2 l hnm
        · intro l hlE
          have : locsOf { e with localizations := some locs2 } = locs2 := by
            simp [locsOf]
          rw [this]
          by_cases hmm : l ∈ missingOf e
          · exact h3 l hmm
          · rw [h2 l hmm]
            have : ¬(l ∈ EXPECTED_LANGUAGES ∧ lookupA (locsOf e) l = none) :=
              fun hx => hmm (mem_missingOf.mpr hx)
            rw [Option.isSome_iff_ne_none]
            intro hnone
            exact this ⟨hlE, hnone⟩)
      (LocalizationFixer.analyze_completeness d).incomplete_keys d.strings strs2
      hknd hkmem he hrun
    obtain ⟨e2, he2, hP⟩ := hp
    exact ⟨e2, hd2 ▸ he2, hP.1, fun _ _ => hP.2⟩
  · have hnone : lookupA
        (LocalizationFixer.analyze_completeness d).missing_languages k = none := by
      by_cases hex : e.shouldTranslate = some false
      · rw [(fixer_classify_excluded_iff e).mpr hex] at hmiss
        exact hmiss
      · have hm : missingOf e = [] := by
          by_contra hm2
          exact hpr ⟨hm2, hex⟩
        have hcl : LocalizationFixer.classify e = .complete := by
          simp [LocalizationFixer.classify, hex, hm]
        rw [hcl] at hmiss
        exact hmiss
    have hpres := runSteps_preserve_self
      (LocalizationFixer.fix_step (LocalizationFixer.analyze_completeness d)) k
      (LocalizationFixer.fstep_other _ k)
      (LocalizationFixer.fstep_self _ k (by rw [hnone]; rfl))
      (LocalizationFixer.analyze_completeness d).incomplete_keys d.strings strs2
      hrun
    refine ⟨e, ?_, fun l _ => rfl, fun hne htr => absurd ⟨hne, htr⟩ hpr⟩
    rw [hd2, hpres]
    exact he

/-- What the analyzer's repair does to the entry bound at `k`, when it
succeeds: existing localizations keep their bindings, and a translatable
entry with missing languages has all target languages afterwards. -/
theorem analyzer_after_fix (d : Catalog) {d2 : Catalog} (k : String) (e : Entry)
    (hnd : (d.strings.map Prod.fst).Nodup) (he : lookupA d.strings k = some e)
    (hfix : LocalizationAnalyzer.fix_localizations d = some d2) :
    ∃ e2, lookupA d2.strings k = some e2 ∧
      (∀ l, (lookupA (locsOf e) l).isSome →
        lookupA (locsOf e2) l = lookupA (locsOf e) l) ∧
      (missingOf e ≠ [] → ¬e.shouldTranslate = some false →
        ∀ l ∈ EXPECTED_LANGUAGES, (lookupA (locsOf e2) l).isSome) := by
  unfold LocalizationAnalyzer.fix_localizations at hfix
  obtain ⟨strs2, hrun, hmk⟩ := Option.map_eq_some'.mp hfix
  have hd2 : d2.strings = strs2 := by rw [← hmk]
  have hmiss : lookupA
      (LocalizationAnalyzer.analyze_completeness d).missing_languages k =
        match LocalizationAnalyzer.classify e with
        | .incompleteMissing m => some m
        | _ => none :=
    lookupA_scan_missing LocalizationAnalyzer.classify hnd he
  by_cases hpr : missingOf e ≠ [] ∧ ¬e.shouldTranslate = some false
  · have hcl : LocalizationAnalyzer.classify e = .incompleteMissing (missingOf e) := by
      simp [LocalizationAnalyzer.classify, hpr.1, hpr.2]
    rw [hcl] at hmiss
    have hknd : (LocalizationAnalyzer.analyze_completeness d).incomplete_keys.Nodup :=
      incomplete_keys_nodup _ hnd
    have hkmem : k ∈ (LocalizationAnalyzer.analyze_completeness d).incomplete_keys :=
      mem_incomplete_of_mem _ (mem_of_lookupA_eq_some he) (by rw [hcl]; rfl)
    have hp := runSteps_process
      (LocalizationAnalyzer.fix_step (LocalizationAnalyzer.analyze_completeness d)) k
      (fun e2 => (∀ l, (lookupA (locsOf e) l).isSome →
          lookupA (locsOf e2) l = lookupA (locsOf e) l) ∧
        (∀ l ∈ EXPECTED_LANGUAGES, (lookupA (locsOf e2) l).isSome)) e
      (LocalizationAnalyzer.astep_other _ k)
      (fun strs strs2x h0 hstep => by
        obtain ⟨locs2, h1, h2, h3⟩ := LocalizationAnalyzer.astep_process _ k e
          (missingOf e) (by rw [hmiss]; rfl) hpr.1 h0 hstep
        refine ⟨{ e with localizations := some locs2 }, h1, ?_, ?_⟩
        · intro l hl
          have hnm : l ∉ missingOf e := not_mem_missingOf_of_isSome hl
          have : locsOf { e with localizations := some locs2 } = locs2 := by
            simp [locsOf]
          rw [this]
          exact h2 l hnm
        · intro l hlE
          have : locsOf { e with localizations := some locs2 } = locs2 := by
            simp [locsOf]
          rw [this]
          by_cases hmm : l ∈ missingOf e
          · exact h3 l hmm
          · rw [h2 l hmm]
            have : ¬(l ∈ EXPECTED_LANGUAGES ∧ lookupA (locsOf e) l = none) :=
              fun hx => hmm (mem_missingOf.mpr hx)
            rw [Option.isSome_iff_ne_none]
            intro hnone
            exact this ⟨hlE, hnone⟩)
      (LocalizationAnalyzer.analyze_completeness d).incomplete_keys d.strings strs2
      hknd hkmem he hrun
    obtain ⟨e2, he2, hP⟩ := hp
    exact ⟨e2, hd2 ▸ he2, hP.1, fun _ _ => hP.2⟩
  · have hnone : lookupA
        (LocalizationAnalyzer.analyze_completeness d).missing_languages k = none := by
      by_cases hex : e.shouldTranslate = some false
      · rw [(analyzer_classify_excluded_iff e).mpr hex] at hmiss
        exact hmiss
      · have hm : missingOf e = [] := by
          by_contra hm2
          exact hpr ⟨hm2, hex⟩
        by_cases hat : all_translated (locsOf e) = true
        · have hcl : LocalizationAnalyzer.classify e = .complete := by
            simp [LocalizationAnalyzer.classify, hex, hm, hat]
          rw [hcl] at hmiss
          exact hmiss
        · have hcl : LocalizationAnalyzer.classify e = .incompleteState := by
            simp [LocalizationAnalyzer.classify, hex, hm, hat]
          rw [hcl] at hmiss
          exact hmiss
    have hpres := runSteps_preserve_self
      (LocalizationAnalyzer.fix_step (LocalizationAnalyzer.analyze_completeness d)) k
      (LocalizationAnalyzer.astep_other _ k)
      (LocalizationAnalyzer.astep_self _ k (by rw [hnone]; rfl))
      (LocalizationAnalyzer.analyze_completeness d).incomplete_keys d.strings strs2
      hrun
    refine ⟨e, ?_, fun l _ => rfl, fun hne htr => absurd ⟨hne, htr⟩ hpr⟩
    rw [hd2, hpres]
    exact he

/-- C3: for every entry, repair (both variants, whenever it returns a
catalog) never deletes or overwrites an existing Localization: every
language code bound before repair is bound to the identical Localization
afterwards, and any changed binding was absent before (only insertions
under absent codes happen). -/
theorem C3_repair_preserves_existing (d : Catalog) (k : String) (e : Entry)
    (hnd : (d.strings.map Prod.fst).Nodup) (he : lookupA d.strings k = some e) :
    (∀ d2, LocalizationFixer.fix_localizations d = some d2 →
      ∃ e2, lookupA d2.strings k = some e2 ∧
        (∀ l loc, lookupA (locsOf e) l = some loc →
          lookupA (locsOf e2) l = some loc) ∧
        (∀ l, lookupA (locsOf e2) l ≠ lookupA (locsOf e) l →
          lookupA (locsOf e) l = none)) ∧
    (∀ d2, LocalizationAnalyzer.fix_localizations d = some d2 →
      ∃ e2, lookupA d2.strings k = some e2 ∧
        (∀ l loc, lookupA (locsOf e) l = some loc →
          lookupA (locsOf e2) l = some loc) ∧
        (∀ l, lookupA (locsOf e2) l ≠ lookupA (locsOf e) l →
          lookupA (locsOf e) l = none)) := by
  refine ⟨?_, ?_⟩
  · intro d2 hfix
    obtain ⟨e2, he2, hpres, _⟩ := fixer_after_fix d k e hnd he hfix
    refine ⟨e2, he2, ?_, ?_⟩
    · intro l loc hl
      rw [hpres l (by rw [hl]; rfl), hl]
    · intro l hne
      by_contra hnn
      exact hne (hpres l (Option.isSome_iff_ne_none.mpr hnn))
  · intro d2 hfix
    obtain ⟨e2, he2, hpres, _⟩ := analyzer_after_fix d k e hnd he hfix
    refine ⟨e2, he2, ?_, ?_⟩
    · intro l loc hl
      rw [hpres l (by rw [hl]; rfl), hl]
    · intro l hne
      by_contra hnn
      exact hne (hpres l (Option.isSome_iff_ne_none.mpr hnn))

/-- The key `"Save"` with only an `en` localization, and the catalog both
repairs produce from it. -/
def eSave : Entry := ⟨none, some [("en", locT "Save")]⟩

def dSave : Catalog := ⟨[("Save", eSave)]⟩

def dSaveFixed : Catalog :=
  ⟨[("Save", ⟨none, some [("en", locT "Save"), ("ar", locT "Save"),
    ("de", locT "Save"), ("es", locT "Save"), ("fr", locT "Save"),
    ("hi", locT "Save"), ("ja", locT "Save"), ("ko", locT "Save"),
    ("pt", locT "Save"), ("zh-Hans", locT "Save")]⟩)]⟩

/-- Concrete instance of `C3_repair_preserves_existing` on `dSave`. -/
theorem C3_repair_preserves_existing_witness :
    ∃ e2, lookupA dSaveFixed.strings "Save" = some e2 ∧
      (∀ l loc, lookupA (locsOf eSave) l = some loc →
        lookupA (locsOf e2) l = some loc) ∧
      (∀ l, lookupA (locsOf e2) l ≠ lookupA (locsOf eSave) l →
        lookupA (locsOf eSave) l = none) :=
  (C3_repair_preserves_existing dSave "Save" eSave (by decide) (by decide)).1
    dSaveFixed (by decide)

/-- C4: after a successful repair (either variant), every entry that was
reported incomplete and is translatable has a `localizations` mapping
containing every code of the ten-code target set. -/
theorem C4_repaired_entries_complete (d : Catalog) (k : String) (e : Entry)
    (hnd : (d.strings.map Prod.fst).Nodup) (he : lookupA d.strings k = some e)
    (hst : ¬e.shouldTranslate = some false) :
    (∀ d2, LocalizationFixer.fix_localizations d = some d2 →
      k ∈ (LocalizationFixer.analyze_completeness d).incomplete_keys →
      ∃ e2, lookupA d2.strings k = some e2 ∧
        ∀ l ∈ EXPECTED_LANGUAGES, (lookupA (locsOf e2) l).isSome) ∧
    (∀ d2, LocalizationAnalyzer.fix_localizations d = some d2 →
      k ∈ (LocalizationAnalyzer.analyze_completeness d).incomplete_keys →
      ∃ e2, lookupA d2.strings k = some e2 ∧
        ∀ l ∈ EXPECTED_LANGUAGES, (lookupA (locsOf e2) l).isSome) := by
  refine ⟨?_, ?_⟩
  · intro d2 hfix hmem
    obtain ⟨e2, he2, hpres, hall⟩ := fixer_after_fix d k e hnd he hfix
    have hinc : (LocalizationFixer.classify e).isIncomplete = true :=
      isIncomplete_of_mem _ hnd he hmem
    cases hcl : LocalizationFixer.classify e with
    | excluded => rw [hcl] at hinc; simp [EntryClass.isIncomplete] at hinc
    | complete => rw [hcl] at hinc; simp [EntryClass.isIncomplete] at hinc
    | incompleteState => exact absurd hcl (fixer_classify_ne_state e)
    | incompleteMissing m =>
      obtain ⟨hm, hne, htr⟩ := fixer_classify_missing hcl
      exact ⟨e2, he2, hall hne htr⟩
  · intro d2 hfix hmem
    obtain ⟨e2, he2, hpres, hall⟩ := analyzer_after_fix d k e hnd he hfix
    have hinc : (LocalizationAnalyzer.classify e).isIncomplete = true :=
      isIncomplete_of_mem _ hnd he hmem
    cases hcl : LocalizationAnalyzer.classify e with
    | excluded => rw [hcl] at hinc; simp [EntryClass.isIncomplete] at hinc
    | complete => rw [hcl] at hinc; simp [EntryClass.isIncomplete] at hinc
    | incompleteState =>
      obtain ⟨hm0, htr⟩ := analyzer_classify_state hcl
      refine ⟨e2, he2, fun l hl => ?_⟩
      have hsome : (lookupA (locsOf e) l).isSome := missingOf_eq_nil_iff.mp hm0 l hl
      rw [hpres l hsome]
      exact hsome
    | incompleteMissing m =>
      obtain ⟨hm, hne, htr⟩ := analyzer_classify_missing hcl
      exact ⟨e2, he2, hall hne htr⟩

/-- Concrete instance of `C4_repaired_entries_complete` on `dSave`, for
both repair variants. -/
theorem C4_repaired_entries_complete_witness :
    (∃ e2, lookupA dSaveFixed.strings "Save" = some e2 ∧
      ∀ l ∈ EXPECTED_LANGUAGES, (lookupA (locsOf e2) l).isSome) ∧
    (∃ e2, lookupA dSaveFixed.strings "Save" = some e2 ∧
      ∀ l ∈ EXPECTED_LANGUAGES, (lookupA (locsOf e2) l).isSome) :=
  ⟨(C4_repaired_entries_complete dSave "Save" eSave (by decide) (by decide)
      (by decide)).1 dSaveFixed (by decide) (by decide),
   (C4_repaired_entries_complete dSave "Save" eSave (by decide) (by decide)
      (by decide)).2 dSaveFixed (by decide) (by decide)⟩

/-- The value-choice chain exactly as the claim states it: the static
phrase dictionary at `(key, L)` if present; else the key itself when
`L = en`; else the canonical value — the existing `en` value if present,
otherwise the key. -/
def claimed_chain (dict : List (String × List (String × String)))
    (key lang : String) (enValue : Option String) : String :=
  match (lookupA dict key).bind (fun m => lookupA m lang) with
  | some v => v
  | none => if lang = "en" then key else enValue.getD key

/-- The amended value-choice chain followed by
`localization_fixer.py`: like the claimed chain, except that a canonical
`en` value is itself looked up in the phrase dictionary first, and that
dictionary translation is preferred over the raw canonical value. -/
def amended_chain (dict : List (String × List (String × String)))
    (key lang : String) (enValue : Option String) : String :=
  match (lookupA dict key).bind (fun m => lookupA m lang) with
  | some v => v
  | none =>
    if lang = "en" then key
    else
      match enValue with
      | some ev =>
        (match (lookupA dict ev).bind (fun m => lookupA m lang) with
         | some v => v
         | none => ev)
      | none => key

/-- The `en` value the repair reads from an existing localizations dict. -/
def enValueOf (existing : List (String × Localization)) : Option String :=
  (lookupA existing "en").bind (fun loc => loc.stringUnit.bind (fun su => su.value))

/-- C5 fails as stated: for key `"Docs"` whose `en` value is
`"Documentation"`, the fixer returns the dictionary translation of the
`en` value (`"Dokumentation"` for `de`), while the claimed chain returns
the canonical value `"Documentation"` itself. -/
theorem C5_counterexample :
    LocalizationFixer.get_translation_value "Docs" "de"
        [("en", locT "Documentation")] = some "Dokumentation" ∧
    claimed_chain LocalizationFixer.TRANSLATION_MAPPINGS "Docs" "de"
        (enValueOf [("en", locT "Documentation")]) = "Documentation" ∧
    LocalizationFixer.get_translation_value "Docs" "de"
        [("en", locT "Documentation")] ≠
      some (claimed_chain LocalizationFixer.TRANSLATION_MAPPINGS "Docs" "de"
        (enValueOf [("en", locT "Documentation")])) := by
  refine ⟨by decide, by decide, by decide⟩

theorem lookupA_map_self {α : Type} (f : String → α) (ms : List String)
    (l : String) (h : l ∈ ms) :
    lookupA (ms.map (fun x => (x, f x))) l = some (f l) := by
  induction ms with
  | nil => simp at h
  | cons a rest ih =>
    by_cases hal : a = l
    · subst hal
      simp [lookupA]
    · rcases List.mem_cons.mp h with h1 | h1
      · exact absurd h1.symm hal
      · simp only [List.map_cons, lookupA, if_neg hal]
        exact ih h1

theorem generate_shape_full {e : Entry} {key : String} {missing : List String}
    {news : List (String × Localization)}
    (h : LocalizationAnalyzer.generate_missing_translations e key missing = some news) :
    ∃ ev,
      (match lookupA (locsOf e) "en" with
       | some loc => loc.stringUnit.bind (fun su => su.value)
       | none => some key) = some ev ∧
      news = missing.map (fun lang =>
        (lang, ⟨some ⟨some "translated",
          some (((lookupA LocalizationAnalyzer.translation_map key).bind
            (fun m => lookupA m lang)).getD ev)⟩⟩)) := by
  unfold LocalizationAnalyzer.generate_missing_translations at h
  obtain ⟨ev, hev, hnews⟩ := Option.map_eq_some'.mp h
  exact ⟨ev, hev, hnews.symm⟩

/-- C5 (amended): the fixer chooses the synthesized value by the amended
chain (claimed chain plus the dictionary re-lookup of the canonical `en`
value); the analyzer's `generate_missing_translations` follows the
claimed chain with its own three-phrase dictionary. -/
theorem C5_value_chain (key lang : String)
    (existing : List (String × Localization)) (h : EnReadable existing) :
    LocalizationFixer.get_translation_value key lang existing =
      some (amended_chain LocalizationFixer.TRANSLATION_MAPPINGS key lang
        (enValueOf existing)) ∧
    (∀ (e : Entry) (missing : List String) (news : List (String × Localization)),
      LocalizationAnalyzer.generate_missing_translations e key missing = some news →
      lang ∈ missing → lang ∈ missingOf e →
      lookupA news lang = some ⟨some ⟨some "translated",
        some (claimed_chain LocalizationAnalyzer.translation_map key lang
          (enValueOf (locsOf e)))⟩⟩) := by
  constructor
  · unfold LocalizationFixer.get_translation_value amended_chain enValueOf
    cases hmap : (lookupA LocalizationFixer.TRANSLATION_MAPPINGS key).bind
        (fun m => lookupA m lang) with
    | some v => rfl
    | none =>
      by_cases hl : lang = "en"
      · simp [hl]
      · simp only [if_neg hl]
        cases hen : lookupA existing "en" with
        | none => simp
        | some loc =>
          obtain ⟨su, hsu, hval⟩ := h loc hen
          obtain ⟨v, hv⟩ := Option.isSome_iff_exists.mp hval
          simp only [Option.some_bind, hsu, hv, Option.map_some']
          cases hx : (lookupA LocalizationFixer.TRANSLATION_MAPPINGS v).bind
              (fun m => lookupA m lang) <;> rfl
  · intro e missing news hgen hmem hmem2
    obtain ⟨ev, hev, hnews⟩ := generate_shape_full hgen
    rw [hnews, lookupA_map_self _ missing lang hmem]
    have hlookup : lookupA (locsOf e) lang = none := (mem_missingOf.mp hmem2).2
    congr 1
    unfold claimed_chain enValueOf
    cases hen : lookupA (locsOf e) "en" with
    | none =>
      rw [hen] at hev
      simp only [Option.some.injEq] at hev
      subst hev
      cases hmap : (lookupA LocalizationAnalyzer.translation_map key).bind
          (fun m => lookupA m lang) with
      | some v => simp [hmap]
      | none =>
        by_cases hl : lang = "en" <;> simp [hmap, hl]
    | some loc =>
      have hl : lang ≠ "en" := by
        intro hx
        rw [hx] at hlookup
        rw [hlookup] at hen
        exact Option.noConfusion hen
      rw [hen] at hev
      have hev2 : loc.stringUnit.bind (fun su => su.value) = some ev := hev
      cases hmap : (lookupA LocalizationAnalyzer.translation_map key).bind
          (fun m => lookupA m lang) with
      | some v => simp [hmap]
      | none => simp [hmap, hl, hev2]

/-- Concrete instance of `C5_value_chain`: the fixer's chain on
`("Docs", "de")` with `en` value `"Documentation"`, and the analyzer's
chain on key `"Docs"`, language `"de"`, entry with no localizations. -/
theorem C5_value_chain_witness :
    (LocalizationFixer.get_translation_value "Docs" "de"
        [("en", locT "Documentation")] =
      some (amended_chain LocalizationFixer.TRANSLATION_MAPPINGS "Docs" "de"
        (enValueOf [("en", locT "Documentation")]))) ∧
    lookupA [("de", locT "Docs")] "de" = some ⟨some ⟨some "translated",
      some (claimed_chain LocalizationAnalyzer.translation_map "Docs" "de"
        (enValueOf (locsOf ⟨none, some []⟩)))⟩⟩ := by
  have h := C5_value_chain "Docs" "de" [("en", locT "Documentation")]
    (by
      intro loc hl
      have hrfl : lookupA [("en", locT "Documentation")] "en" =
          some (locT "Documentation") := rfl
      rw [hrfl, Option.some.injEq] at hl
      subst hl
      exact ⟨_, rfl, rfl⟩)
  exact ⟨h.1, h.2 ⟨none, some []⟩ ["de"] [("de", locT "Docs")] (by decide)
    (by decide) (by decide)⟩

theorem incomplete_keys_sub (c : Entry → EntryClass) (strs : List (String × Entry)) :
    ∀ k ∈ (scanWith c strs).incomplete_keys, ∃ e, (k, e) ∈ strs := by
  intro k hk
  rw [scanWith_incomplete] at hk
  obtain ⟨p, hp, hfst⟩ := List.mem_map.mp hk
  refine ⟨p.2, ?_⟩
  rw [← hfst]
  exact (List.mem_filter.mp hp).1

/-- Totality of the fixer's repair under readable `en` localizations. -/
theorem fixer_fix_total (d : Catalog)
    (h : ∀ p ∈ d.strings, EnReadable (locsOf p.2)) :
    (LocalizationFixer.fix_localizations d).isSome := by
  have htot := runSteps_total
    (LocalizationFixer.fix_step (LocalizationFixer.analyze_completeness d))
    (fun strs =>
      (∀ key ∈ (LocalizationFixer.analyze_completeness d).incomplete_keys,
        (lookupA strs key).isSome) ∧
      (∀ k e, lookupA strs k = some e → EnReadable (locsOf e)))
    (LocalizationFixer.analyze_completeness d).incomplete_keys
    (by
      intro strs key hInv hkey
      simp only [LocalizationFixer.fix_step]
      by_cases hm : (lookupA
          (LocalizationFixer.analyze_completeness d).missing_languages key).getD [] = []
      · rw [if_pos hm]
        rfl
      · rw [if_neg hm]
        obtain ⟨e, he⟩ := Option.isSome_iff_exists.mp (hInv.1 key hkey)
        simp only [he]
        have hr : EnReadable (locsOf e) := hInv.2 key e he
        cases hloc : e.localizations with
        | some locs =>
          simp only [hloc]
          have hr2 : EnReadable locs := by
            have : locsOf e = locs := by simp [locsOf, hloc]
            rwa [this] at hr
          obtain ⟨locs2, hl2⟩ := Option.isSome_iff_exists.mp
            (@LocalizationFixer.add_go_isSome key true
              ((lookupA (LocalizationFixer.analyze_completeness d).missing_languages
                key).getD []) locs hr2)
          rw [hl2]
          rfl
        | none =>
          simp only [hloc]
          obtain ⟨locs2, hl2⟩ := Option.isSome_iff_exists.mp
            (@LocalizationFixer.add_go_isSome key false
              ((lookupA (LocalizationFixer.analyze_completeness d).missing_languages
                key).getD []) [] EnReadable_nil)
          rw [hl2]
          rfl)
    (by
      intro strs key strs2 hInv hstep
      rcases LocalizationFixer.fstep_char _ strs key hstep with
        h1 | ⟨e, aliased, locs0, locs2, he, hl0, hadd, hins⟩
      · rw [h1]
        exact hInv
      · subst hins
        constructor
        · intro key2 hkey2
          rw [lookupA_insertA]
          by_cases hk : key = key2
          · rw [if_pos hk]
            rfl
          · rw [if_neg hk]
            exact hInv.1 key2 hkey2
        · intro k2 e2 he2
          rw [lookupA_insertA] at he2
          by_cases hk : key = k2
          · rw [if_pos hk, Option.some.injEq] at he2
            subst he2
            have hloc2 : locsOf { e with localizations := some locs2 } = locs2 := by
              simp [locsOf]
            rw [hloc2]
            have hr0 : EnReadable locs0 := by
              rcases hl0 with h2 | h2
              · rw [h2]
                exact hInv.2 key e he
              · rw [h2]
                exact EnReadable_nil
            exact LocalizationFixer.add_go_en_readable hr0 hadd
          · rw [if_neg hk] at he2
            exact hInv.2 k2 e2 he2)
    (LocalizationFixer.analyze_completeness d).incomplete_keys (fun _ hx => hx)
    d.strings
    (by
      constructor
      · intro key hkey
        obtain ⟨e, hmem⟩ := incomplete_keys_sub LocalizationFixer.classify d.strings
          key hkey
        exact lookupA_isSome_of_mem hmem
      · intro k e he
        exact h (k, e) (mem_of_lookupA_eq_some he))
  obtain ⟨strs2, hrun⟩ := Option.isSome_iff_exists.mp htot
  have hrun2 : LocalizationFixer.fix_go (LocalizationFixer.analyze_completeness d)
      (LocalizationFixer.analyze_completeness d).incomplete_keys d.strings =
        some strs2 := hrun
  unfold LocalizationFixer.fix_localizations
  rw [hrun2]
  rfl

/-- Totality of the analyzer's repair under readable `en` localizations
and present `localizations` mappings. -/
theorem analyzer_fix_total (d : Catalog)
    (h : ∀ p ∈ d.strings, EnReadable (locsOf p.2) ∧ p.2.localizations.isSome) :
    (LocalizationAnalyzer.fix_localizations d).isSome := by
  have htot := runSteps_total
    (LocalizationAnalyzer.fix_step (LocalizationAnalyzer.analyze_completeness d))
    (fun strs =>
      (∀ key ∈ (LocalizationAnalyzer.analyze_completeness d).incomplete_keys,
        (lookupA strs key).isSome) ∧
      (∀ k e, lookupA strs k = some e →
        EnReadable (locsOf e) ∧ e.localizations.isSome))
    (LocalizationAnalyzer.analyze_completeness d).incomplete_keys
    (by
      intro strs key hInv hkey
      simp only [LocalizationAnalyzer.fix_step]
      by_cases hm : (lookupA
          (LocalizationAnalyzer.analyze_completeness d).missing_languages key).getD [] = []
      · rw [if_pos hm]
        rfl
      · rw [if_neg hm]
        obtain ⟨e, he⟩ := Option.isSome_iff_exists.mp (hInv.1 key hkey)
        simp only [he]
        obtain ⟨hr, hls⟩ := hInv.2 key e he
        obtain ⟨news, hnews⟩ := Option.isSome_iff_exists.mp
          (@LocalizationAnalyzer.generate_isSome e key
            ((lookupA (LocalizationAnalyzer.analyze_completeness d).missing_languages
              key).getD []) hr)
        simp only [hnews]
        obtain ⟨locs, hloc⟩ := Option.isSome_iff_exists.mp hls
        simp only [hloc]
        rfl)
    (by
      intro strs key strs2 hInv hstep
      rcases LocalizationAnalyzer.astep_char _ strs key hstep with
        h1 | ⟨e, news, locs, he, hgen, hloc, hins⟩
      · rw [h1]
        exact hInv
      · subst hins
        constructor
        · intro key2 hkey2
          rw [lookupA_insertA]
          by_cases hk : key = key2
          · rw [if_pos hk]
            rfl
          · rw [if_neg hk]
            exact hInv.1 key2 hkey2
        · intro k2 e2 he2
          rw [lookupA_insertA] at he2
          by_cases hk : key = k2
          · rw [if_pos hk, Option.some.injEq] at he2
            subst he2
            refine ⟨?_, rfl⟩
            have hr : EnReadable locs := by
              have h3 := (hInv.2 key e he).1
              have h4 : locsOf e = locs := by simp [locsOf, hloc]
              rwa [h4] at h3
            have h5 := foldl_insertA_en_readable hr (LocalizationAnalyzer.generate_wf hgen)
            simpa [locsOf] using h5
          · rw [if_neg hk] at he2
            exact hInv.2 k2 e2 he2)
    (LocalizationAnalyzer.analyze_completeness d).incomplete_keys (fun _ hx => hx)
    d.strings
    (by
      constructor
      · intro key hkey
        obtain ⟨e, hmem⟩ := incomplete_keys_sub LocalizationAnalyzer.classify d.strings
          key hkey
        exact lookupA_isSome_of_mem hmem
      · intro k e he
        exact h (k, e) (mem_of_lookupA_eq_some he))
  obtain ⟨strs2, hrun⟩ := Option.isSome_iff_exists.mp htot
  have hrun2 : LocalizationAnalyzer.fix_go (LocalizationAnalyzer.analyze_completeness d)
      (LocalizationAnalyzer.analyze_completeness d).incomplete_keys d.strings =
        some strs2 := hrun
  unfold LocalizationAnalyzer.fix_localizations
  rw [hrun2]
  rfl

/-- A translatable, incomplete entry with no `localizations` mapping. -/
def dC1 : Catalog := ⟨[("k", ⟨none, none⟩)]⟩

/-- C1 fails as stated: the sole entry of `dC1` is translatable and
incomplete, yet the interactive variant's repair raises `KeyError`
(modelled as `none`) when writing into the absent `localizations`
mapping, instead of returning a repaired catalog. -/
theorem C1_counterexample :
    "k" ∈ (LocalizationAnalyzer.analyze_completeness dC1).incomplete_keys ∧
    LocalizationAnalyzer.fix_localizations dC1 = none := by decide

/-- C1 (amended): repair never fails on catalogs whose existing `en`
Localizations each carry a `stringUnit` with a `value`; the interactive
(analyzer) variant additionally requires every entry to have a
`localizations` mapping. Outside these conditions repair can raise
`KeyError`, as `C1_counterexample` shows. -/
theorem C1_repair_total (d : Catalog) :
    ((∀ p ∈ d.strings, EnReadable (locsOf p.2)) →
      (LocalizationFixer.fix_localizations d).isSome) ∧
    ((∀ p ∈ d.strings, EnReadable (locsOf p.2) ∧ p.2.localizations.isSome) →
      (LocalizationAnalyzer.fix_localizations d).isSome) :=
  ⟨fixer_fix_total d, analyzer_fix_total d⟩

/-- Concrete instance of `C1_repair_total` on `dSave`. -/
theorem C1_repair_total_witness :
    (LocalizationFixer.fix_localizations dSave).isSome ∧
    (LocalizationAnalyzer.fix_localizations dSave).isSome := by
  have h := C1_repair_total dSave
  refine ⟨h.1 ?_, h.2 ?_⟩
  · intro p hp
    simp only [dSave, List.mem_singleton] at hp
    subst hp
    intro loc hl
    have hrfl : lookupA (locsOf eSave) "en" = some (locT "Save") := rfl
    rw [hrfl, Option.some.injEq] at hl
    subst hl
    exact ⟨_, rfl, rfl⟩
  · intro p hp
    simp only [dSave, List.mem_singleton] at hp
    subst hp
    refine ⟨?_, by decide⟩
    intro loc hl
    have hrfl : lookupA (locsOf eSave) "en" = some (locT "Save") := rfl
    rw [hrfl, Option.some.injEq] at hl
    subst hl
    exact ⟨_, rfl, rfl⟩

end Depthful
